import Mathlib

/-! Stream demultiplexer of glcs (`src/glc/core/copy.c`).

A shallow embedding of the copy/demux stage of glcs: the target registry
(`copy_add`), the worker lifecycle (`copy_process_start`, `copy_process_wait`)
and the worker itself (`copy_thread`).

The packetstream transport, the pthread library, the logger and the shared glc
state flag are external collaborators.  Every call the worker makes to them is
recorded in a trace, and every result they hand back is read from a `World`
script, so that a run of the worker is a total, executable function of the
registry and of the script.
-/

namespace Glcs

/-! ## Constants -/

/-- Value of `EINTR` in `<errno.h>` (Linux). -/
def EINTR : Nat := 4

/-- Value of `EAGAIN` in `<errno.h>` (Linux). -/
def EAGAIN : Nat := 11

/-- Value of `EALREADY` in `<errno.h>` (Linux). -/
def EALREADY : Nat := 114

/-! ## Messages and the write side of the transport -/

/-- The message header `glc_message_header_t`: it carries the type tag. -/
structure glc_message_header_t where
  type : Nat
deriving DecidableEq, Repr

/-- One `ps_packet_write` worth of content: the header struct or a run of payload bytes. -/
inductive Chunk where
  | header (h : glc_message_header_t)
  | bytes (d : List Nat)
deriving DecidableEq, Repr

/-- Write cursor `ps_packet_t` bound to one target buffer: whether a packet is currently open,
what has been written into the open packet, and the packets closed (handed to the buffer) so far. -/
structure ps_packet_t where
  opened : Bool
  pending : List Chunk
  committed : List (List Chunk)
deriving DecidableEq, Repr

/-- Fresh cursor, as left by `ps_packet_init(&newtarget->packet, newtarget->buffer)`. -/
def ps_packet_init : ps_packet_t :=
  { opened := false, pending := [], committed := [] }

/-- Transport contract of `ps_packet_open(.., PS_PACKET_WRITE)`: on success (`ret = 0`) a new
empty packet is open; on failure the cursor is untouched. -/
def ps_packet_open (ret : Nat) (p : ps_packet_t) : ps_packet_t :=
  if ret = 0 then { p with opened := true, pending := [] } else p

/-- Transport contract of `ps_packet_write`: on success the chunk is appended to the open packet;
on failure the cursor is untouched. -/
def ps_packet_write (ret : Nat) (p : ps_packet_t) (c : Chunk) : ps_packet_t :=
  if ret = 0 then { p with pending := p.pending ++ [c] } else p

/-- Transport contract of `ps_packet_close`: on success the open packet is handed to the buffer
and the cursor is closed; on failure the cursor is untouched. -/
def ps_packet_close (ret : Nat) (p : ps_packet_t) : ps_packet_t :=
  if ret = 0 then { opened := false, pending := [], committed := p.committed ++ [p.pending] }
  else p

/-! ## The registry and the instance -/

/-- One registry entry, `struct copy_target_s` (the `next` link is the list structure). -/
structure copy_target_s where
  buffer : Nat
  packet : ps_packet_t
  type : Nat
deriving DecidableEq, Repr

/-- The instance, `struct copy_s`.  `from_` is the field `from`; the `glc` handle (logger and
shared state) lives in the `World` and in the worker `State`. -/
structure copy_s where
  from_ : Nat
  copy_thread : Nat
  running : Bool
  copy_target : List copy_target_s
deriving DecidableEq, Repr

/-- Function `copy_init`: a zeroed instance (`calloc`). -/
def copy_init : copy_s :=
  { from_ := 0, copy_thread := 0, running := false, copy_target := [] }

/-- Function `copy_add`: a new entry with a fresh write cursor is linked in front of the list. -/
def copy_add (copy : copy_s) (target : Nat) (type : Nat) : Nat × copy_s :=
  let newtarget : copy_target_s := { buffer := target, packet := ps_packet_init, type := type }
  (0, { copy with copy_target := newtarget :: copy.copy_target })

/-! ## The environment of a worker run -/

/-- The four transport operations the worker performs on a target cursor. -/
inductive TgtOp where
  | op_open
  | op_write_hdr
  | op_write_data
  | op_close
deriving DecidableEq, Repr

/-- What the source side of the transport does during one loop iteration: the result codes of
`ps_packet_open`, `ps_packet_read`, `ps_packet_getsize`, `ps_packet_dma` and `ps_packet_close` on
the read cursor, and the message (header and payload bytes) that is at the head of the source. -/
structure SrcStep where
  open_ret : Nat
  read_ret : Nat
  hdr : glc_message_header_t
  getsize_ret : Nat
  dma_ret : Nat
  payload : List Nat
  close_ret : Nat
deriving DecidableEq, Repr

/-- Everything outside the worker.
* `header_size` is `sizeof(glc_message_header_t)` and `GLC_MESSAGE_CLOSE` the reserved type tag;
  both are declared in `glc/common/glc.h` and are parameters here.
* `cancel0` is the value of the `GLC_STATE_CANCEL` flag when the worker starts.
* `ext_cancel k` tells whether another pipeline stage has set the flag by the time the worker
  makes its `k`-th call (from 0) of `glc_state_test`.
* `init_ret` is the result of `ps_packet_init(&read, copy->from)`.
* `source` scripts the source channel, one entry per loop iteration; when it is used up the
  producer sends nothing more and the worker stays blocked in `ps_packet_open`.
* `tgt_ret n i op` is the result of operation `op` on the cursor of the `i`-th registry entry
  (from 0, in list order) during iteration `n` (from 0). -/
structure World where
  header_size : Nat
  GLC_MESSAGE_CLOSE : Nat
  cancel0 : Bool
  ext_cancel : Nat → Bool
  init_ret : Nat
  source : List SrcStep
  tgt_ret : Nat → Nat → TgtOp → Nat

/-- A call made by the worker to a collaborator, with the result code where there is one.
Target events carry the position of the registry entry. -/
inductive Event where
  | packet_init (ret : Nat)
  | src_open (ret : Nat)
  | src_read (ret : Nat)
  | src_getsize (ret : Nat)
  | src_dma (ret : Nat)
  | src_close (ret : Nat)
  | tgt_open (i : Nat) (ret : Nat)
  | tgt_write_hdr (i : Nat) (ret : Nat)
  | tgt_write_data (i : Nat) (ret : Nat)
  | tgt_close (i : Nat) (ret : Nat)
  | packet_destroy
  | buffer_cancel (buffer : Nat)
  | log (ret : Nat)
  | state_set
deriving DecidableEq, Repr

/-- State of a worker run: the shared cancel flag as the worker sees it, the number of
`glc_state_test` calls made, the calls made so far, and the registry entries with their cursors. -/
structure State where
  cancel : Bool
  tests : Nat
  trace : List Event
  targets : List copy_target_s
deriving DecidableEq, Repr

/-- Record one call. -/
def State.emit (st : State) (e : Event) : State :=
  { st with trace := st.trace ++ [e] }

/-- Call `glc_state_test(copy->glc, GLC_STATE_CANCEL)`: the flag is set if the worker set it, if it was
set before, or if another stage has set it by now; it is never reset. -/
def glc_state_test (W : World) (st : State) : Bool × State :=
  let c := st.cancel || W.ext_cancel st.tests
  (c, { st with cancel := c, tests := st.tests + 1 })

/-- How the worker loop is left: it never returns from a blocking source open, it falls out of
the `do … while`, or it jumps to `err` with a result code. -/
inductive Exit where
  | blocked
  | finished
  | failed (ret : Nat)
deriving DecidableEq, Repr

/-- Result of a walk over the registry: the last result code, the registry entries and the
calls made. -/
structure Dispatch where
  ret : Nat
  targets : List copy_target_s
  events : List Event
deriving DecidableEq, Repr

/-- Result of a delivery to one target. -/
structure Delivery where
  ret : Nat
  target : copy_target_s
  events : List Event
deriving DecidableEq, Repr

/-- Lines 172-182: open the target cursor, write header, write payload, close; the first
nonzero result is returned at once (`goto err`). -/
def deliver (W : World) (n i : Nat) (msg_hdr : glc_message_header_t) (data : List Nat)
    (t : copy_target_s) : Delivery :=
  let r1 := W.tgt_ret n i TgtOp.op_open
  let p1 := ps_packet_open r1 t.packet
  if r1 ≠ 0 then ⟨r1, { t with packet := p1 }, [Event.tgt_open i r1]⟩ else
  let r2 := W.tgt_ret n i TgtOp.op_write_hdr
  let p2 := ps_packet_write r2 p1 (Chunk.header msg_hdr)
  if r2 ≠ 0 then
    ⟨r2, { t with packet := p2 }, [Event.tgt_open i r1, Event.tgt_write_hdr i r2]⟩
  else
  let r3 := W.tgt_ret n i TgtOp.op_write_data
  let p3 := ps_packet_write r3 p2 (Chunk.bytes data)
  if r3 ≠ 0 then
    ⟨r3, { t with packet := p3 },
      [Event.tgt_open i r1, Event.tgt_write_hdr i r2, Event.tgt_write_data i r3]⟩
  else
  let r4 := W.tgt_ret n i TgtOp.op_close
  let p4 := ps_packet_close r4 p3
  ⟨r4, { t with packet := p4 },
    [Event.tgt_open i r1, Event.tgt_write_hdr i r2, Event.tgt_write_data i r3,
     Event.tgt_close i r4]⟩

/-- Lines 168-185: walk the registry from its head; an entry whose filter is 0 or equals the
message type gets a delivery; a failed delivery leaves the walk at once. -/
def dispatch (W : World) (n : Nat) (msg_hdr : glc_message_header_t) (data : List Nat) :
    Nat → List copy_target_s → Dispatch
  | _, [] => ⟨0, [], []⟩
  | i, t :: ts =>
    if t.type = 0 ∨ t.type = msg_hdr.type then
      let d := deliver W n i msg_hdr data t
      if d.ret ≠ 0 then ⟨d.ret, d.target :: ts, d.events⟩ else
      let r := dispatch W n msg_hdr data (i + 1) ts
      ⟨r.ret, d.target :: r.targets, d.events ++ r.events⟩
    else
      let r := dispatch W n msg_hdr data (i + 1) ts
      ⟨r.ret, t :: r.targets, r.events⟩

/-- Lines 154-189, the `do … while` loop, one source script entry per iteration.  `n` is the
iteration number. -/
def copy_loop (W : World) : Nat → List SrcStep → State → Exit × State
  | _, [], st => (Exit.blocked, st)
  | n, s :: rest, st =>
    let st1 := st.emit (Event.src_open s.open_ret)
    if s.open_ret ≠ 0 then (Exit.failed s.open_ret, st1) else
    let st2 := st1.emit (Event.src_read s.read_ret)
    if s.read_ret ≠ 0 then (Exit.failed s.read_ret, st2) else
    let msg_hdr := s.hdr
    let st3 := st2.emit (Event.src_getsize s.getsize_ret)
    if s.getsize_ret ≠ 0 then (Exit.failed s.getsize_ret, st3) else
    let size := W.header_size + s.payload.length
    let data_size := size - W.header_size
    let st4 := st3.emit (Event.src_dma s.dma_ret)
    if s.dma_ret ≠ 0 then (Exit.failed s.dma_ret, st4) else
    let data := s.payload.take data_size
    let d := dispatch W n msg_hdr data 0 st4.targets
    let st5 : State := { st4 with targets := d.targets, trace := st4.trace ++ d.events }
    if d.ret ≠ 0 then (Exit.failed d.ret, st5) else
    let st6 := st5.emit (Event.src_close s.close_ret)
    let c := glc_state_test W st6
    if !c.1 && msg_hdr.type != W.GLC_MESSAGE_CLOSE then copy_loop W (n + 1) rest c.2
    else (Exit.finished, c.2)

/-- Lines 205-210, label `err`: unless the code is `EINTR`, log it and set the cancel flag. -/
def err (ret : Nat) (st : State) : State :=
  if ret ≠ EINTR then
    { st with cancel := true, trace := st.trace ++ [Event.log ret, Event.state_set] }
  else st

/-- Lines 191-204, label `finish`: destroy the read cursor; if the cancel flag is set, cancel
the source buffer and the buffer of every registry entry. -/
def finish (W : World) (copy : copy_s) (st : State) : State :=
  let st1 := st.emit Event.packet_destroy
  let c := glc_state_test W st1
  if c.1 then
    { c.2 with trace := c.2.trace ++
        Event.buffer_cancel copy.from_ ::
          c.2.targets.map (fun t => Event.buffer_cancel t.buffer) }
  else c.2

/-- State of the worker once `ps_packet_init(&read, copy->from)` has been called. -/
def start_state (W : World) (copy : copy_s) : State :=
  { cancel := W.cancel0, tests := 0, trace := [Event.packet_init W.init_ret],
    targets := copy.copy_target }

/-- The worker, `copy_thread`. -/
def copy_thread (W : World) (copy : copy_s) : Exit × State :=
  let st0 := start_state W copy
  if W.init_ret ≠ 0 then (Exit.failed W.init_ret, finish W copy (err W.init_ret st0)) else
  match copy_loop W 0 W.source st0 with
  | (Exit.blocked, st) => (Exit.blocked, st)
  | (Exit.finished, st) => (Exit.finished, finish W copy st)
  | (Exit.failed ret, st) => (Exit.failed ret, finish W copy (err ret st))

/-! ## Worker lifecycle -/

/-- A worker thread that has been created and not yet joined: its handle and the source buffer
of the instance it was created with. -/
structure Worker where
  tid : Nat
  from_ : Nat
deriving DecidableEq, Repr

/-- The threads created through this instance that have not been joined, and the next free
thread handle. -/
structure Threads where
  alive : List Worker
  next : Nat
deriving DecidableEq, Repr

/-- Call `pthread_create(&copy->copy_thread, &attr, copy_thread, copy)` with result `ret`: on success a
new thread running `copy_thread` on `copy` exists and its handle is stored. -/
def pthread_create (ret : Nat) (T : Threads) (copy : copy_s) : Nat × copy_s × Threads :=
  if ret = 0 then
    (0, { copy with copy_thread := T.next },
      { alive := ⟨T.next, copy.from_⟩ :: T.alive, next := T.next + 1 })
  else (ret, copy, T)

/-- Call `pthread_join(copy->copy_thread, NULL)`: returns once the thread has left `copy_thread`,
and never if the thread stays blocked. -/
def pthread_join (o : Exit) (tid : Nat) (T : Threads) : Option Threads :=
  if o = Exit.blocked then none
  else some { T with alive := T.alive.filter (fun w => w.tid ≠ tid) }

/-- Function `copy_process_start`; `create_ret` is the result `pthread_create` will give. -/
def copy_process_start (create_ret : Nat) (copy : copy_s) (T : Threads) (from_ : Nat) :
    Nat × copy_s × Threads :=
  if copy.running then (EALREADY, copy, T) else
  let copy1 := { copy with from_ := from_ }
  let r := pthread_create create_ret T copy1
  if r.1 = 0 then (r.1, { r.2.1 with running := true }, r.2.2) else r

/-- Function `copy_process_wait`; the worker being joined runs in world `W`.  `none` means the call never
returns. -/
def copy_process_wait (W : World) (copy : copy_s) (T : Threads) : Option (Nat × copy_s × Threads) :=
  if !copy.running then some (EAGAIN, copy, T) else
  match pthread_join (copy_thread W copy).1 copy.copy_thread T with
  | none => none
  | some T1 => some (0, { copy with running := false }, T1)

/-- The instance together with its threads. -/
structure Sys where
  copy : copy_s
  threads : Threads

/-- A call made by the owner of the instance. -/
inductive Call where
  | add (target : Nat) (type : Nat)
  | start (create_ret : Nat) (from_ : Nat)
  | wait (W : World)

/-- Effect of one owner call; a `wait` that never returns leaves everything as it is. -/
def Sys.call (s : Sys) : Call → Sys
  | Call.add target type => { s with copy := (copy_add s.copy target type).2 }
  | Call.start create_ret from_ =>
    let r := copy_process_start create_ret s.copy s.threads from_
    { copy := r.2.1, threads := r.2.2 }
  | Call.wait W =>
    match copy_process_wait W s.copy s.threads with
    | none => s
    | some r => { copy := r.2.1, threads := r.2.2 }

/-- Effect of a sequence of owner calls. -/
def Sys.calls (s : Sys) (cs : List Call) : Sys :=
  cs.foldl Sys.call s

/-- A new instance with no thread. -/
def Sys.init : Sys :=
  { copy := copy_init, threads := { alive := [], next := 1 } }

/-! ## Vocabulary of the properties -/

/-- The filter of a registry entry accepts a header: the filter is 0 (match all) or equals the
type tag. -/
def accepts (t : copy_target_s) (h : glc_message_header_t) : Bool :=
  t.type == 0 || t.type == h.type

/-- A source message as a target must receive it: the header, then the payload. -/
def framed (s : SrcStep) : List Chunk :=
  [Chunk.header s.hdr, Chunk.bytes s.payload]

/-- Framed size of a source message: header plus payload. -/
def framed_size (W : World) (s : SrcStep) : Nat :=
  W.header_size + s.payload.length

/-- The source messages up to and including the first one whose type tag is `close`. -/
def consumed (close : Nat) : List SrcStep → List SrcStep
  | [] => []
  | s :: rest => if s.hdr.type = close then [s] else s :: consumed close rest

/-- No source operation of the step fails (the result of the final close is not looked at by the
worker and is left free). -/
def SrcStep.ok (s : SrcStep) : Prop :=
  s.open_ret = 0 ∧ s.read_ret = 0 ∧ s.getsize_ret = 0 ∧ s.dma_ret = 0

instance (s : SrcStep) : Decidable s.ok :=
  inferInstanceAs (Decidable (s.open_ret = 0 ∧ s.read_ret = 0 ∧ s.getsize_ret = 0 ∧ s.dma_ret = 0))

/-- The first nonzero result among the source operations the worker checks, if any. -/
def SrcStep.fault (s : SrcStep) : Option Nat :=
  if s.open_ret ≠ 0 then some s.open_ret
  else if s.read_ret ≠ 0 then some s.read_ret
  else if s.getsize_ret ≠ 0 then some s.getsize_ret
  else if s.dma_ret ≠ 0 then some s.dma_ret
  else none

/-- The event is a `ps_packet_open` on the source. -/
def Event.is_src_open : Event → Bool
  | Event.src_open _ => true
  | _ => false

/-- The event is a `ps_buffer_cancel`. -/
def Event.is_cancel : Event → Bool
  | Event.buffer_cancel _ => true
  | _ => false

/-- The event is a log call or a `glc_state_set`. -/
def Event.is_report : Event → Bool
  | Event.log _ => true
  | Event.state_set => true
  | _ => false

/-- Result code of a transport call whose result the worker tests. -/
def Event.checked_ret : Event → Option Nat
  | Event.packet_init r => some r
  | Event.src_open r => some r
  | Event.src_read r => some r
  | Event.src_getsize r => some r
  | Event.src_dma r => some r
  | Event.tgt_open _ r => some r
  | Event.tgt_write_hdr _ r => some r
  | Event.tgt_write_data _ r => some r
  | Event.tgt_close _ r => some r
  | _ => none

/-- The event is a transport call that did not make the worker leave the loop: a tested call
with result 0, or the source close, whose result is not tested. -/
def Event.passed : Event → Bool
  | Event.src_close _ => true
  | e => e.checked_ret == some 0

/-- Position of the registry entry a target event is about. -/
def Event.target : Event → Option Nat
  | Event.tgt_open i _ => some i
  | Event.tgt_write_hdr i _ => some i
  | Event.tgt_write_data i _ => some i
  | Event.tgt_close i _ => some i
  | _ => none

/-- The target receives the message: a packet made of the header and the payload is handed to
its buffer and its cursor is closed. -/
def relay (h : glc_message_header_t) (data : List Nat) (t : copy_target_s) : copy_target_s :=
  if accepts t h then
    { t with packet :=
        { opened := false, pending := [],
          committed := t.packet.committed ++ [[Chunk.header h, Chunk.bytes data]] } }
  else t

/-- The calls of the label `finish` after the destroy: when the flag `c` is set, one cancel on the
source buffer and one on the buffer of each registry entry, in list order. -/
def cleanup_calls (copy : copy_s) (c : Bool) : List Event :=
  if c then
    Event.buffer_cancel copy.from_ :: copy.copy_target.map (fun t => Event.buffer_cancel t.buffer)
  else []

/-- The calls of the label `err` for result code `r`. -/
def reports (r : Nat) : List Event :=
  if r = EINTR then [] else [Event.log r, Event.state_set]

/-- The flag seen by the worker is set only if it was set at start or another stage has set it by
one of the tests made so far. -/
def flag_external (W : World) (st : State) : Prop :=
  st.cancel = true ↔ (W.cancel0 = true ∨ ∃ k, k < st.tests ∧ W.ext_cancel k = true)

/-- The source step with the result of the source close replaced by 0. -/
def SrcStep.close_ok (s : SrcStep) : SrcStep :=
  { s with close_ret := 0 }

/-- The event with the result of a source close forgotten. -/
def Event.forget_close : Event → Event
  | Event.src_close _ => Event.src_close 0
  | e => e

/-- The state with the results of the source closes forgotten in its trace. -/
def State.forget_close (st : State) : State :=
  { st with trace := st.trace.map Event.forget_close }

/-! ## Concrete runs -/

/-- A source step in which every source operation succeeds. -/
def msg (type : Nat) (payload : List Nat) : SrcStep :=
  { open_ret := 0, read_ret := 0, hdr := { type := type }, getsize_ret := 0, dma_ret := 0,
    payload := payload, close_ret := 0 }

/-- Registry of the scenario of the specification: target A on buffer 10 with filter 0 (match
all), target B on buffer 20 with filter 5, the source on buffer 1. -/
def scenario_copy : copy_s :=
  { (copy_add (copy_add copy_init 10 0).2 20 5).2 with from_ := 1 }

/-- The scenario of the specification: the source emits a message of type 3, one of type 5 and
the closing message (type 0 there); nothing fails and nobody cancels. -/
def scenario_world : World where
  header_size := 1
  GLC_MESSAGE_CLOSE := 0
  cancel0 := false
  ext_cancel := fun _ => false
  init_ret := 0
  source := [msg 3 [7, 8], msg 5 [9], msg 0 [], msg 3 [1]]
  tgt_ret := fun _ _ _ => 0

/-- Registry in which the same buffer 10 is registered twice, once per wanted type (3 and 5);
the source is buffer 1. -/
def shared_buffer_copy : copy_s :=
  { (copy_add (copy_add copy_init 10 3).2 10 5).2 with from_ := 1 }

/-- The first message (type 3) is relayed, then `ps_packet_read` on the source fails with code 5
(`EIO`). -/
def read_fault_world : World where
  header_size := 1
  GLC_MESSAGE_CLOSE := 0
  cancel0 := false
  ext_cancel := fun _ => false
  init_ret := 0
  source := [msg 3 [7, 8], { msg 5 [9] with read_ret := 5 }]
  tgt_ret := fun _ _ _ => 0

/-- Nothing fails except that closing the source read after the first message returns 5; the
second message is the closing one. -/
def close_fault_world : World where
  header_size := 1
  GLC_MESSAGE_CLOSE := 0
  cancel0 := false
  ext_cancel := fun _ => false
  init_ret := 0
  source := [{ msg 3 [7, 8] with close_ret := 5 }, msg 0 []]
  tgt_ret := fun _ _ _ => 0

/-- In the first iteration the payload write on the registry entry at position 1 fails with
code `ret`; everything else succeeds. -/
def payload_fault_world (ret : Nat) : World where
  header_size := 1
  GLC_MESSAGE_CLOSE := 0
  cancel0 := false
  ext_cancel := fun _ => false
  init_ret := 0
  source := [msg 3 [7, 8], msg 5 [9], msg 0 []]
  tgt_ret := fun n i op => if n = 0 ∧ i = 1 ∧ op = TgtOp.op_write_data then ret else 0

/-- The buffer of the registry entry at position 1 is cancelled by somebody else after the first
message: from iteration 1 on, every operation on that entry returns `EINTR`.  The cancel flag is
not set by anybody. -/
def interrupted_world : World where
  header_size := 1
  GLC_MESSAGE_CLOSE := 0
  cancel0 := false
  ext_cancel := fun _ => false
  init_ret := 0
  source := [msg 3 [7, 8], msg 5 [9], msg 0 []]
  tgt_ret := fun n i _ => if 1 ≤ n ∧ i = 1 then EINTR else 0

/-- Registry with two match-all targets: buffer 20 at position 0, buffer 10 at position 1. -/
def two_all_copy : copy_s :=
  { (copy_add (copy_add copy_init 10 0).2 20 0).2 with from_ := 1 }

/-- Opening the cursor of the registry entry at position 0 fails with code 5; everything else
succeeds. -/
def open_fault_world : World where
  header_size := 1
  GLC_MESSAGE_CLOSE := 0
  cancel0 := false
  ext_cancel := fun _ => false
  init_ret := 0
  source := [msg 3 [7, 8], msg 0 []]
  tgt_ret := fun _ i op => if i = 0 ∧ op = TgtOp.op_open then 5 else 0

/-- The scenario of the specification, with the cancel flag already set when the worker starts. -/
def cancelled_world : World :=
  { scenario_world with cancel0 := true }

/-- An instance whose worker (thread 1, bound to source buffer 1) is running, with the registry
of the scenario. -/
def running_sys : Sys :=
  Sys.call { copy := scenario_copy, threads := { alive := [], next := 1 } } (Call.start 0 1)

/-- The running flag and the thread table agree: no thread when the flag is clear, exactly the
thread of the stored handle when it is set. -/
def Sys.consistent (s : Sys) : Prop :=
  (s.copy.running = false → s.threads.alive = []) ∧
  (s.copy.running = true → ∃ f, s.threads.alive = [⟨s.copy.copy_thread, f⟩])

/-! ## Theorems -/

/-! ## Deliveries and dispatch -/

theorem deliver_ok (W : World) (n i : Nat) (h : glc_message_header_t) (data : List Nat)
    (t : copy_target_s) (hz : ∀ op, W.tgt_ret n i op = 0) :
    (deliver W n i h data t).ret = 0 ∧
    (deliver W n i h data t).target =
      { t with packet := { opened := false, pending := [],
                           committed := t.packet.committed ++ [[Chunk.header h, Chunk.bytes data]] } } := by
  simp [deliver, hz, ps_packet_open, ps_packet_write, ps_packet_close]

theorem dispatch_ok (W : World) (n : Nat) (h : glc_message_header_t) (data : List Nat)
    (ts : List copy_target_s) :
    ∀ i, (∀ j op, W.tgt_ret n j op = 0) →
      (dispatch W n h data i ts).ret = 0 ∧
      (dispatch W n h data i ts).targets = ts.map (relay h data) := by
  induction ts with
  | nil => intro i _; simp [dispatch]
  | cons t ts ih =>
    intro i hz
    obtain ⟨h1, h2⟩ := ih (i + 1) hz
    obtain ⟨d1, d2⟩ := deliver_ok W n i h data t (hz i)
    by_cases hm : t.type = 0 ∨ t.type = h.type
    · have ha : accepts t h = true := by simpa [accepts] using hm
      simp [dispatch, hm, d1, d2, h1, h2, relay, ha]
    · have ha : accepts t h = false := by simpa [accepts] using hm
      simp [dispatch, hm, h1, h2, relay, ha]

/-- State after a complete iteration on source step `s`, before the loop condition is tested. -/
theorem copy_loop_step (W : World) (n : Nat) (s : SrcStep) (rest : List SrcStep) (st : State)
    (hs : s.ok) (hd : (dispatch W n s.hdr s.payload 0 st.targets).ret = 0) :
    copy_loop W n (s :: rest) st =
      if (st.cancel || W.ext_cancel st.tests) = false ∧ s.hdr.type ≠ W.GLC_MESSAGE_CLOSE then
        copy_loop W (n + 1) rest
          { cancel := st.cancel || W.ext_cancel st.tests, tests := st.tests + 1,
            trace := st.trace ++ ([Event.src_open 0, Event.src_read 0, Event.src_getsize 0,
              Event.src_dma 0] ++ (dispatch W n s.hdr s.payload 0 st.targets).events ++
              [Event.src_close s.close_ret]),
            targets := (dispatch W n s.hdr s.payload 0 st.targets).targets }
      else
        (Exit.finished,
          { cancel := st.cancel || W.ext_cancel st.tests, tests := st.tests + 1,
            trace := st.trace ++ ([Event.src_open 0, Event.src_read 0, Event.src_getsize 0,
              Event.src_dma 0] ++ (dispatch W n s.hdr s.payload 0 st.targets).events ++
              [Event.src_close s.close_ret]),
            targets := (dispatch W n s.hdr s.payload 0 st.targets).targets }) := by
  obtain ⟨h1, h2, h3, h4⟩ := hs
  simp only [copy_loop, State.emit, glc_state_test, h1, h2, h3, h4, Nat.add_sub_cancel_left,
    List.take_length, hd, ne_eq, not_true_eq_false, if_false, List.append_assoc,
    List.singleton_append, List.cons_append, List.nil_append]
  by_cases hc : (st.cancel || W.ext_cancel st.tests) = false
  · by_cases ht : s.hdr.type = W.GLC_MESSAGE_CLOSE
    · simp [hc, ht]
    · simp [hc, ht]
  · simp [hc]

theorem deliver_events (W : World) (n i : Nat) (h : glc_message_header_t) (data : List Nat)
    (t : copy_target_s) :
    ∀ e ∈ (deliver W n i h data t).events, e.target = some i := by
  intro e he
  unfold deliver at he
  simp only [] at he
  split_ifs at he <;> simp at he <;> rcases he with rfl | rfl | rfl | rfl <;> rfl

theorem dispatch_events (W : World) (n : Nat) (h : glc_message_header_t) (data : List Nat)
    (ts : List copy_target_s) :
    ∀ i, ∀ e ∈ (dispatch W n h data i ts).events, e.target.isSome = true := by
  induction ts with
  | nil => intro i e he; simp [dispatch] at he
  | cons t ts ih =>
    intro i e he
    unfold dispatch at he
    simp only [] at he
    split_ifs at he
    · simp [deliver_events W n i h data t e he]
    · simp only [List.mem_append] at he
      rcases he with he | he
      · simp [deliver_events W n i h data t e he]
      · exact ih (i + 1) e he
    · exact ih (i + 1) e he

theorem dispatch_events_src_open (W : World) (n : Nat) (h : glc_message_header_t)
    (data : List Nat) (ts : List copy_target_s) (i : Nat) :
    (dispatch W n h data i ts).events.countP Event.is_src_open = 0 := by
  rw [List.countP_eq_zero]
  intro e he
  have := dispatch_events W n h data ts i e he
  cases e <;> simp [Event.target, Event.is_src_open] at this ⊢

theorem consumed_eq_nil (c : Nat) (src : List SrcStep) : consumed c src = [] → src = [] := by
  cases src with
  | nil => intro _; rfl
  | cons s rest =>
    intro h
    unfold consumed at h
    split_ifs at h

theorem head_mem_consumed (c : Nat) (s : SrcStep) (rest : List SrcStep) :
    s ∈ consumed c (s :: rest) := by
  unfold consumed
  split_ifs <;> simp

/-- A run of the loop in which nothing fails and the cancel flag stays clear relays the consumed
messages, one after the other, to the registry. -/
theorem copy_loop_ok (W : World) (htgt : ∀ n i op, W.tgt_ret n i op = 0) :
    ∀ (src : List SrcStep) (n : Nat) (st : State),
      (∀ s ∈ consumed W.GLC_MESSAGE_CLOSE src, s.ok) →
      st.cancel = false →
      (∀ k, st.tests ≤ k → k + 1 < st.tests + (consumed W.GLC_MESSAGE_CLOSE src).length →
        W.ext_cancel k = false) →
      (copy_loop W n src st).2.targets =
        (consumed W.GLC_MESSAGE_CLOSE src).foldl
          (fun ts s => ts.map (relay s.hdr s.payload)) st.targets ∧
      (copy_loop W n src st).2.trace.countP Event.is_src_open =
        st.trace.countP Event.is_src_open + (consumed W.GLC_MESSAGE_CLOSE src).length ∧
      ((∃ s ∈ src, s.hdr.type = W.GLC_MESSAGE_CLOSE) → (copy_loop W n src st).1 = Exit.finished) ∧
      (∀ r, (copy_loop W n src st).1 ≠ Exit.failed r) := by
  intro src
  induction src with
  | nil => intro n st _ _ _; simp [copy_loop, consumed]
  | cons s rest ih =>
    intro n st hok hc hext
    have hs : s.ok := hok s (head_mem_consumed _ s rest)
    obtain ⟨hd1, hd2⟩ := dispatch_ok W n s.hdr s.payload st.targets 0 (htgt n)
    rw [copy_loop_step W n s rest st hs hd1]
    have hcnt := dispatch_events_src_open W n s.hdr s.payload st.targets 0
    by_cases ht : s.hdr.type = W.GLC_MESSAGE_CLOSE
    · simp [ht, consumed, hd2, List.countP_append, List.countP_cons, Event.is_src_open, hcnt]
    · have hcons : consumed W.GLC_MESSAGE_CLOSE (s :: rest) =
          s :: consumed W.GLC_MESSAGE_CLOSE rest := by simp [consumed, ht]
      rw [hcons] at hok hext
      by_cases he : W.ext_cancel st.tests = false
      · have hcond : ((st.cancel || W.ext_cancel st.tests) = false ∧
            s.hdr.type ≠ W.GLC_MESSAGE_CLOSE) := ⟨by simp [hc, he], ht⟩
        rw [if_pos hcond]
        have := ih (n + 1)
          { cancel := st.cancel || W.ext_cancel st.tests, tests := st.tests + 1,
            trace := st.trace ++ ([Event.src_open 0, Event.src_read 0, Event.src_getsize 0,
              Event.src_dma 0] ++ (dispatch W n s.hdr s.payload 0 st.targets).events ++
              [Event.src_close s.close_ret]),
            targets := (dispatch W n s.hdr s.payload 0 st.targets).targets }
          (fun x hx => hok x (List.mem_cons_of_mem _ hx))
          (by simp [hc, he])
          (fun k hk1 hk2 => hext k (by simp at hk1; omega) (by simp at hk2 ⊢; omega))
        obtain ⟨a1, a2, a3, a4⟩ := this
        refine ⟨?_, ?_, ?_, a4⟩
        · rw [a1, hcons, hd2]; rfl
        · rw [a2, hcons]
          simp [List.countP_append, List.countP_cons, Event.is_src_open, hcnt]
          omega
        · rintro ⟨x, hx, hxt⟩
          apply a3
          simp only [List.mem_cons] at hx
          rcases hx with rfl | hx
          · exact absurd hxt ht
          · exact ⟨x, hx, hxt⟩
      · have hnil : rest = [] := by
          apply consumed_eq_nil W.GLC_MESSAGE_CLOSE
          by_contra hne
          have hpos : 0 < (consumed W.GLC_MESSAGE_CLOSE rest).length :=
            List.length_pos.mpr hne
          exact he (hext st.tests (le_refl _) (by simp; omega))
        subst hnil
        have hcond : ¬ ((st.cancel || W.ext_cancel st.tests) = false ∧
            s.hdr.type ≠ W.GLC_MESSAGE_CLOSE) := by simp [hc, he]
        rw [if_neg hcond]
        simp [consumed, ht, hd2, List.countP_append, List.countP_cons, Event.is_src_open, hcnt]

/-! ## From the loop to the worker -/

theorem err_targets (r : Nat) (st : State) : (err r st).targets = st.targets := by
  unfold err; split_ifs <;> rfl

theorem finish_targets (W : World) (copy : copy_s) (st : State) :
    (finish W copy st).targets = st.targets := by
  unfold finish; simp only [glc_state_test, State.emit]; split_ifs <;> rfl

theorem err_src_open (r : Nat) (st : State) :
    (err r st).trace.countP Event.is_src_open = st.trace.countP Event.is_src_open := by
  unfold err; split_ifs <;> simp [List.countP_append, List.countP_cons, Event.is_src_open]

theorem finish_src_open (W : World) (copy : copy_s) (st : State) :
    (finish W copy st).trace.countP Event.is_src_open = st.trace.countP Event.is_src_open := by
  unfold finish; simp only [glc_state_test, State.emit]
  split_ifs
  · simp only [List.countP_append, List.countP_cons, List.countP_nil, Event.is_src_open]
    have : List.countP Event.is_src_open
        (List.map (fun t : copy_target_s => Event.buffer_cancel t.buffer) st.targets) = 0 := by
      rw [List.countP_eq_zero]
      intro e he
      simp only [List.mem_map] at he
      obtain ⟨t, _, rfl⟩ := he
      simp [Event.is_src_open]
    simp [this]
  · simp [List.countP_append, List.countP_cons, Event.is_src_open]

theorem copy_thread_exit (W : World) (copy : copy_s) (h : W.init_ret = 0) :
    (copy_thread W copy).1 = (copy_loop W 0 W.source (start_state W copy)).1 := by
  unfold copy_thread
  simp only [h, ne_eq, not_true_eq_false, if_false]
  split <;> simp_all

theorem copy_thread_targets (W : World) (copy : copy_s) (h : W.init_ret = 0) :
    (copy_thread W copy).2.targets = (copy_loop W 0 W.source (start_state W copy)).2.targets := by
  unfold copy_thread
  simp only [h, ne_eq, not_true_eq_false, if_false]
  split <;> simp_all [finish_targets, err_targets]

theorem copy_thread_src_open (W : World) (copy : copy_s) (h : W.init_ret = 0) :
    (copy_thread W copy).2.trace.countP Event.is_src_open =
      (copy_loop W 0 W.source (start_state W copy)).2.trace.countP Event.is_src_open := by
  unfold copy_thread
  simp only [h, ne_eq, not_true_eq_false, if_false]
  split <;> simp_all [finish_src_open, err_src_open]

/-! ## What a registry entry holds after a sequence of relays -/

theorem relay_type (h : glc_message_header_t) (data : List Nat) (t : copy_target_s) :
    (relay h data t).type = t.type ∧ (relay h data t).buffer = t.buffer := by
  unfold relay; split_ifs <;> simp

theorem relay_all (msgs : List SrcStep) :
    ∀ ts : List copy_target_s,
      (msgs.foldl (fun ts s => ts.map (relay s.hdr s.payload)) ts).map
          (fun t => (t.buffer, t.type, t.packet.committed)) =
        ts.map (fun t => (t.buffer, t.type,
          t.packet.committed ++ (msgs.filter (fun s => accepts t s.hdr)).map framed)) := by
  induction msgs with
  | nil => intro ts; simp
  | cons m ms ih =>
    intro ts
    simp only [List.foldl_cons]
    rw [ih]
    simp only [List.map_map]
    apply List.map_congr_left
    intro t _
    simp only [Function.comp]
    obtain ⟨h1, h2⟩ := relay_type m.hdr m.payload t
    have hacc : ∀ s : SrcStep, accepts (relay m.hdr m.payload t) s.hdr = accepts t s.hdr := by
      intro s; simp [accepts, h1]
    simp only [h1, h2, hacc, List.filter_cons]
    by_cases ha : accepts t m.hdr = true
    · simp [relay, ha, framed]
    · simp [relay, ha]

theorem consumed_split (c : Nat) (pre : List SrcStep) (s : SrcStep) (rest : List SrcStep)
    (hpre : ∀ x ∈ pre, x.hdr.type ≠ c) (hs : s.hdr.type = c) :
    consumed c (pre ++ s :: rest) = pre ++ [s] := by
  induction pre with
  | nil => simp [consumed, hs]
  | cons p ps ih =>
    have hp : p.hdr.type ≠ c := hpre p (List.mem_cons_self _ _)
    simp [consumed, hp, ih (fun x hx => hpre x (List.mem_cons_of_mem _ hx))]

theorem consumed_sublist (c : Nat) (src : List SrcStep) : ∀ s ∈ consumed c src, s ∈ src := by
  induction src with
  | nil => intro s hs; simp [consumed] at hs
  | cons a rest ih =>
    intro s hs
    unfold consumed at hs
    split_ifs at hs
    · simp at hs; simp [hs]
    · simp only [List.mem_cons] at hs ⊢
      rcases hs with h | h
      · exact Or.inl h
      · exact Or.inr (ih s h)

/-! ## Fan-out and ordering -/

/-- C1: in a run where no transport operation fails (the source operations on the consumed
messages and all target operations return 0) and the cancel flag stays clear, every
registry entry keeps its buffer and filter and its buffer receives, after what it held before,
exactly the consumed source messages (those up to and including the first CLOSE) whose type its
filter accepts (filter 0, or filter equal to the type), in source order, each as the source
header followed by the unchanged payload, whose length is the framed size minus the header
size. -/
theorem fanout_exact_subsequence (W : World) (copy : copy_s)
    (hinit : W.init_ret = 0)
    (hsrc : ∀ s ∈ consumed W.GLC_MESSAGE_CLOSE W.source, s.ok)
    (htgt : ∀ n i op, W.tgt_ret n i op = 0)
    (hc0 : W.cancel0 = false)
    (hext : ∀ k, W.ext_cancel k = false) :
    (copy_thread W copy).2.targets.map (fun t => (t.buffer, t.type, t.packet.committed)) =
      copy.copy_target.map (fun t => (t.buffer, t.type,
        t.packet.committed ++
          ((consumed W.GLC_MESSAGE_CLOSE W.source).filter (fun s => accepts t s.hdr)).map
            framed)) ∧
    (∀ s ∈ W.source, ∀ t ∈ copy.copy_target,
      (accepts t s.hdr = true ↔ (t.type = 0 ∨ t.type = s.hdr.type)) ∧
      framed s = [Chunk.header s.hdr, Chunk.bytes s.payload] ∧
      s.payload.length = framed_size W s - W.header_size) := by
  constructor
  · rw [copy_thread_targets W copy hinit]
    have h := copy_loop_ok W htgt W.source 0 (start_state W copy) hsrc hc0
      (fun k _ _ => hext k)
    rw [h.1, relay_all]
    rfl
  · intro s _ t _
    simp [accepts, framed, framed_size]

/-- C1 at the scenario of the specification. -/
theorem fanout_exact_subsequence_witness :
    (scenario_world.init_ret = 0 ∧ scenario_world.cancel0 = false) ∧
    (copy_thread scenario_world scenario_copy).2.targets.map
        (fun t => (t.buffer, t.type, t.packet.committed)) =
      [(20, 5, [[Chunk.header ⟨5⟩, Chunk.bytes [9]]]),
       (10, 0, [[Chunk.header ⟨3⟩, Chunk.bytes [7, 8]], [Chunk.header ⟨5⟩, Chunk.bytes [9]],
                [Chunk.header ⟨0⟩, Chunk.bytes []]])] :=
  ⟨⟨rfl, rfl⟩,
   (fanout_exact_subsequence scenario_world scenario_copy rfl (by decide) (fun _ _ _ => rfl) rfl
      (fun _ => rfl)).1.trans (by decide)⟩

/-- C2: in a run with no transport failure that reaches a CLOSE message (the messages before it
are not CLOSE and the cancel flag is clear when they are read), the worker leaves the loop
normally, every registry entry whose filter accepts the CLOSE message has received it (header and
payload) as its last message, and the number of source opens is the number of messages up to and
including CLOSE: nothing after it is read. -/
theorem close_forwarded_then_stop (W : World) (copy : copy_s)
    (pre : List SrcStep) (s : SrcStep) (rest : List SrcStep)
    (hsrc : W.source = pre ++ s :: rest)
    (hinit : W.init_ret = 0)
    (hpre : ∀ x ∈ pre, x.ok ∧ x.hdr.type ≠ W.GLC_MESSAGE_CLOSE)
    (hs : s.ok) (hclose : s.hdr.type = W.GLC_MESSAGE_CLOSE)
    (htgt : ∀ n i op, W.tgt_ret n i op = 0)
    (hc0 : W.cancel0 = false)
    (hext : ∀ k, k < pre.length → W.ext_cancel k = false) :
    (copy_thread W copy).1 = Exit.finished ∧
    (copy_thread W copy).2.targets.map (fun t => (t.buffer, t.type, t.packet.committed)) =
      copy.copy_target.map (fun t => (t.buffer, t.type,
        t.packet.committed ++ (pre.filter (fun x => accepts t x.hdr)).map framed ++
          (if accepts t s.hdr then [framed s] else []))) ∧
    (copy_thread W copy).2.trace.countP Event.is_src_open = pre.length + 1 := by
  have hcons : consumed W.GLC_MESSAGE_CLOSE W.source = pre ++ [s] := by
    rw [hsrc]; exact consumed_split _ pre s rest (fun x hx => (hpre x hx).2) hclose
  have h := copy_loop_ok W htgt W.source 0 (start_state W copy)
    (by
      rw [hcons]; intro x hx
      simp only [List.mem_append, List.mem_singleton] at hx
      rcases hx with hx | rfl
      · exact (hpre x hx).1
      · exact hs)
    hc0
    (by
      rw [hcons]; intro k _ hk
      apply hext
      simp [start_state] at hk
      omega)
  obtain ⟨a1, a2, a3, _⟩ := h
  refine ⟨?_, ?_, ?_⟩
  · rw [copy_thread_exit W copy hinit]
    exact a3 ⟨s, by simp [hsrc], hclose⟩
  · rw [copy_thread_targets W copy hinit, a1, relay_all, hcons]
    apply List.map_congr_left
    intro t _
    by_cases ha : accepts t s.hdr = true
    · simp [List.filter_append, ha, start_state]
    · simp [List.filter_append, ha, start_state]
  · rw [copy_thread_src_open W copy hinit, a2, hcons]
    simp [start_state, Event.is_src_open]

/-- C2 at the scenario of the specification: the closing message is the third one and a fourth
message waits behind it. -/
theorem close_forwarded_then_stop_witness :
    (scenario_world.source = [msg 3 [7, 8], msg 5 [9]] ++ msg 0 [] :: [msg 3 [1]] ∧
      (msg 0 []).hdr.type = scenario_world.GLC_MESSAGE_CLOSE) ∧
    (copy_thread scenario_world scenario_copy).1 = Exit.finished ∧
    (copy_thread scenario_world scenario_copy).2.targets.map
        (fun t => (t.buffer, t.type, t.packet.committed)) =
      scenario_copy.copy_target.map (fun t => (t.buffer, t.type,
        t.packet.committed ++
          ([msg 3 [7, 8], msg 5 [9]].filter (fun x => accepts t x.hdr)).map framed ++
          (if accepts t (msg 0 []).hdr then [framed (msg 0 [])] else []))) ∧
    (copy_thread scenario_world scenario_copy).2.trace.countP Event.is_src_open = 2 + 1 :=
  ⟨⟨rfl, rfl⟩,
   close_forwarded_then_stop scenario_world scenario_copy [msg 3 [7, 8], msg 5 [9]] (msg 0 [])
     [msg 3 [1]] rfl rfl (by decide) (by decide) rfl (fun _ _ _ => rfl) rfl (fun _ _ => rfl)⟩

/-! ## Shape of the trace of a run -/

theorem fault_none_ok (s : SrcStep) (h : s.fault = none) : s.ok := by
  unfold SrcStep.fault at h
  unfold SrcStep.ok
  split_ifs at h
  simp_all

theorem fault_some_ne_zero (s : SrcStep) (r : Nat) (h : s.fault = some r) : r ≠ 0 := by
  unfold SrcStep.fault at h
  split_ifs at h <;> simp at h <;> omega

/-- A failing source operation: the loop is left at once with the failing code; registry and
flag are untouched. -/
theorem copy_loop_fault (W : World) (n : Nat) (s : SrcStep) (rest : List SrcStep) (st : State)
    (r : Nat) (h : s.fault = some r) :
    ∃ body op, (∀ x ∈ body, Event.passed x = true) ∧ Event.checked_ret op = some r ∧
      Event.target op = none ∧
      copy_loop W n (s :: rest) st =
        (Exit.failed r, { st with trace := st.trace ++ body ++ [op] }) := by
  unfold SrcStep.fault at h
  split_ifs at h with h1 h2 h3 h4 <;> simp only [Option.some.injEq] at h <;> subst h
  · exact ⟨[], Event.src_open s.open_ret, by simp, rfl, rfl, by simp [copy_loop, h1, State.emit]⟩
  · simp only [ne_eq, not_not] at h1
    exact ⟨[Event.src_open 0], Event.src_read s.read_ret, by simp [Event.passed, Event.checked_ret],
      rfl, rfl, by simp [copy_loop, h1, h2, State.emit]⟩
  · simp only [ne_eq, not_not] at h1 h2
    exact ⟨[Event.src_open 0, Event.src_read 0], Event.src_getsize s.getsize_ret,
      by simp [Event.passed, Event.checked_ret], rfl, rfl,
      by simp [copy_loop, h1, h2, h3, State.emit]⟩
  · simp only [ne_eq, not_not] at h1 h2 h3
    exact ⟨[Event.src_open 0, Event.src_read 0, Event.src_getsize 0], Event.src_dma s.dma_ret,
      by simp [Event.passed, Event.checked_ret], rfl, rfl,
      by simp [copy_loop, h1, h2, h3, h4, State.emit]⟩

/-- A failing delivery: the loop is left at once with the failing code, without closing the
source read and without testing the flag. -/
theorem copy_loop_dispatch_fail (W : World) (n : Nat) (s : SrcStep) (rest : List SrcStep)
    (st : State) (hs : s.ok) (hd : (dispatch W n s.hdr s.payload 0 st.targets).ret ≠ 0) :
    copy_loop W n (s :: rest) st =
      (Exit.failed (dispatch W n s.hdr s.payload 0 st.targets).ret,
        { st with
          targets := (dispatch W n s.hdr s.payload 0 st.targets).targets,
          trace := st.trace ++ ([Event.src_open 0, Event.src_read 0, Event.src_getsize 0,
            Event.src_dma 0] ++ (dispatch W n s.hdr s.payload 0 st.targets).events) }) := by
  obtain ⟨h1, h2, h3, h4⟩ := hs
  simp [copy_loop, State.emit, h1, h2, h3, h4, hd]

theorem deliver_trace (W : World) (n i : Nat) (h : glc_message_header_t) (data : List Nat)
    (t : copy_target_s) :
    ((deliver W n i h data t).ret = 0 →
      ∀ x ∈ (deliver W n i h data t).events, Event.passed x = true) ∧
    ((deliver W n i h data t).ret ≠ 0 →
      ∃ body op, (deliver W n i h data t).events = body ++ [op] ∧
        (∀ x ∈ body, Event.passed x = true) ∧
        Event.checked_ret op = some (deliver W n i h data t).ret ∧
        Event.target op = some i) := by
  unfold deliver
  simp only []
  split_ifs with h1 h2 h3
  · refine ⟨fun hz => absurd hz h1, fun _ => ⟨[], Event.tgt_open i _, by simp, by simp, rfl, rfl⟩⟩
  · simp only [ne_eq, not_not] at h1
    refine ⟨fun hz => absurd hz h2, fun _ =>
      ⟨[Event.tgt_open i 0], Event.tgt_write_hdr i _, by simp [h1], ?_, rfl, rfl⟩⟩
    simp [Event.passed, Event.checked_ret]
  · simp only [ne_eq, not_not] at h1 h2
    refine ⟨fun hz => absurd hz h3, fun _ =>
      ⟨[Event.tgt_open i 0, Event.tgt_write_hdr i 0], Event.tgt_write_data i _,
        by simp [h1, h2], ?_, rfl, rfl⟩⟩
    simp [Event.passed, Event.checked_ret]
  · simp only [ne_eq, not_not] at h1 h2 h3
    constructor
    · intro hz
      simp only [] at hz
      simp [h1, h2, h3, hz, Event.passed, Event.checked_ret]
    · intro hnz
      refine ⟨[Event.tgt_open i 0, Event.tgt_write_hdr i 0, Event.tgt_write_data i 0],
        Event.tgt_close i _, by simp [h1, h2, h3], ?_, rfl, rfl⟩
      simp [Event.passed, Event.checked_ret]

theorem dispatch_trace (W : World) (n : Nat) (h : glc_message_header_t) (data : List Nat)
    (ts : List copy_target_s) :
    ∀ i,
      ((dispatch W n h data i ts).ret = 0 →
        ∀ x ∈ (dispatch W n h data i ts).events, Event.passed x = true) ∧
      ((dispatch W n h data i ts).ret ≠ 0 →
        ∃ body op, (dispatch W n h data i ts).events = body ++ [op] ∧
          (∀ x ∈ body, Event.passed x = true) ∧
          Event.checked_ret op = some (dispatch W n h data i ts).ret ∧
          (Event.target op).isSome = true) := by
  induction ts with
  | nil => intro i; simp [dispatch]
  | cons t ts ih =>
    intro i
    obtain ⟨d1, d2⟩ := deliver_trace W n i h data t
    obtain ⟨r1, r2⟩ := ih (i + 1)
    unfold dispatch
    simp only []
    split_ifs with hm hd
    · refine ⟨fun hz => absurd hz hd, fun _ => ?_⟩
      obtain ⟨body, op, e1, e2, e3, e4⟩ := d2 hd
      exact ⟨body, op, e1, e2, e3, by simp [e4]⟩
    · simp only [ne_eq, not_not] at hd
      constructor
      · intro hz x hx
        simp only [List.mem_append] at hx
        rcases hx with hx | hx
        · exact d1 hd x hx
        · exact r1 hz x hx
      · intro hnz
        obtain ⟨body, op, e1, e2, e3, e4⟩ := r2 hnz
        refine ⟨(deliver W n i h data t).events ++ body, op, ?_, ?_, e3, e4⟩
        · simp only [e1, List.append_assoc]
        · intro x hx
          simp only [List.mem_append] at hx
          rcases hx with hx | hx
          · exact d1 hd x hx
          · exact e2 x hx
    · exact ⟨r1, r2⟩

/-- Shape of the trace of the loop: calls that passed, followed, when the loop is left through
`err` with code `r`, by the one tested call that returned `r`, which is not 0. -/
theorem copy_loop_trace (W : World) :
    ∀ (src : List SrcStep) (n : Nat) (st : State),
      ∃ body, (∀ x ∈ body, Event.passed x = true) ∧
        ((∀ r, (copy_loop W n src st).1 ≠ Exit.failed r) →
          (copy_loop W n src st).2.trace = st.trace ++ body) ∧
        (∀ r, (copy_loop W n src st).1 = Exit.failed r →
          r ≠ 0 ∧ ∃ op, Event.checked_ret op = some r ∧
            (copy_loop W n src st).2.trace = st.trace ++ body ++ [op]) := by
  intro src
  induction src with
  | nil => intro n st; exact ⟨[], by simp, by simp [copy_loop], by simp [copy_loop]⟩
  | cons s rest ih =>
    intro n st
    cases hf : s.fault with
    | some r =>
      obtain ⟨body, op, b1, b2, _, b4⟩ := copy_loop_fault W n s rest st r hf
      refine ⟨body, b1, ?_, ?_⟩
      · intro hne; exact absurd (by rw [b4]) (hne r)
      · intro r2 hr2
        rw [b4] at hr2 ⊢
        simp only [Exit.failed.injEq] at hr2
        subst hr2
        exact ⟨fault_some_ne_zero s r hf, op, b2, rfl⟩
    | none =>
      have hs := fault_none_ok s hf
      obtain ⟨t1, t2⟩ := dispatch_trace W n s.hdr s.payload st.targets 0
      have hsrc4 : ∀ x ∈ [Event.src_open 0, Event.src_read 0, Event.src_getsize 0,
          Event.src_dma 0], Event.passed x = true := by
        simp [Event.passed, Event.checked_ret]
      by_cases hd : (dispatch W n s.hdr s.payload 0 st.targets).ret = 0
      · rw [copy_loop_step W n s rest st hs hd]
        split_ifs with hc
        · obtain ⟨body, b1, b2, b3⟩ := ih (n + 1)
            { cancel := st.cancel || W.ext_cancel st.tests, tests := st.tests + 1,
              trace := st.trace ++ ([Event.src_open 0, Event.src_read 0, Event.src_getsize 0,
                Event.src_dma 0] ++ (dispatch W n s.hdr s.payload 0 st.targets).events ++
                [Event.src_close s.close_ret]),
              targets := (dispatch W n s.hdr s.payload 0 st.targets).targets }
          refine ⟨([Event.src_open 0, Event.src_read 0, Event.src_getsize 0,
                Event.src_dma 0] ++ (dispatch W n s.hdr s.payload 0 st.targets).events ++
                [Event.src_close s.close_ret]) ++ body, ?_, ?_, ?_⟩
          · intro x hx
            simp only [List.mem_append] at hx
            rcases hx with (((hx | hx) | hx) | hx)
            · exact hsrc4 x hx
            · exact t1 hd x hx
            · simp only [List.mem_singleton] at hx; subst hx; rfl
            · exact b1 x hx
          · intro hne
            rw [b2 hne]
            simp only [List.append_assoc]
          · intro r hr
            obtain ⟨c1, op, c2, c3⟩ := b3 r hr
            refine ⟨c1, op, c2, ?_⟩
            rw [c3]
            simp only [List.append_assoc]
        · refine ⟨[Event.src_open 0, Event.src_read 0, Event.src_getsize 0,
                Event.src_dma 0] ++ (dispatch W n s.hdr s.payload 0 st.targets).events ++
                [Event.src_close s.close_ret], ?_, ?_, ?_⟩
          · intro x hx
            simp only [List.mem_append] at hx
            rcases hx with ((hx | hx) | hx)
            · exact hsrc4 x hx
            · exact t1 hd x hx
            · simp only [List.mem_singleton] at hx; subst hx; rfl
          · intro _; rfl
          · intro r hr; simp at hr
      · rw [copy_loop_dispatch_fail W n s rest st hs hd]
        obtain ⟨body, op, e1, e2, e3, _⟩ := t2 hd
        refine ⟨[Event.src_open 0, Event.src_read 0, Event.src_getsize 0,
                Event.src_dma 0] ++ body, ?_, ?_, ?_⟩
        · intro x hx
          simp only [List.mem_append] at hx
          rcases hx with hx | hx
          · exact hsrc4 x hx
          · exact e2 x hx
        · intro hne; exact absurd rfl (hne _)
        · intro r hr
          simp only [Exit.failed.injEq] at hr
          subst hr
          refine ⟨hd, op, e3, ?_⟩
          simp only [e1, List.append_assoc]

/-! ## Buffers, flag and cleanup -/

theorem deliver_buffer (W : World) (n i : Nat) (h : glc_message_header_t) (data : List Nat)
    (t : copy_target_s) :
    (deliver W n i h data t).target.buffer = t.buffer ∧
    (deliver W n i h data t).target.type = t.type := by
  unfold deliver
  simp only []
  split_ifs <;> exact ⟨rfl, rfl⟩

theorem dispatch_buffers (W : World) (n : Nat) (h : glc_message_header_t) (data : List Nat)
    (ts : List copy_target_s) :
    ∀ i, (dispatch W n h data i ts).targets.map (fun t => (t.buffer, t.type)) =
      ts.map (fun t => (t.buffer, t.type)) := by
  induction ts with
  | nil => intro i; simp [dispatch]
  | cons t ts ih =>
    intro i
    obtain ⟨b1, b2⟩ := deliver_buffer W n i h data t
    unfold dispatch
    simp only []
    split_ifs
    · simp [b1, b2]
    · simp [b1, b2, ih (i + 1)]
    · simp [ih (i + 1)]

/-- The loop never changes the buffer or the filter of a registry entry. -/
theorem copy_loop_buffers (W : World) :
    ∀ (src : List SrcStep) (n : Nat) (st : State),
      (copy_loop W n src st).2.targets.map (fun t => (t.buffer, t.type)) =
        st.targets.map (fun t => (t.buffer, t.type)) := by
  intro src
  induction src with
  | nil => intro n st; rfl
  | cons s rest ih =>
    intro n st
    cases hf : s.fault with
    | some r =>
      obtain ⟨body, op, _, _, _, b4⟩ := copy_loop_fault W n s rest st r hf
      rw [b4]
    | none =>
      have hs := fault_none_ok s hf
      have hb := dispatch_buffers W n s.hdr s.payload st.targets 0
      by_cases hd : (dispatch W n s.hdr s.payload 0 st.targets).ret = 0
      · rw [copy_loop_step W n s rest st hs hd]
        split_ifs
        · rw [ih]; exact hb
        · exact hb
      · rw [copy_loop_dispatch_fail W n s rest st hs hd]
        exact hb

/-- The worker sets the flag only at `err`: through the loop it stays a purely external flag. -/
theorem copy_loop_flag (W : World) :
    ∀ (src : List SrcStep) (n : Nat) (st : State),
      flag_external W st → flag_external W (copy_loop W n src st).2 := by
  intro src
  induction src with
  | nil => intro n st h; exact h
  | cons s rest ih =>
    intro n st h
    have hnext : flag_external W
        { cancel := st.cancel || W.ext_cancel st.tests, tests := st.tests + 1,
          trace := st.trace ++ ([Event.src_open 0, Event.src_read 0, Event.src_getsize 0,
            Event.src_dma 0] ++ (dispatch W n s.hdr s.payload 0 st.targets).events ++
            [Event.src_close s.close_ret]),
          targets := (dispatch W n s.hdr s.payload 0 st.targets).targets } := by
      unfold flag_external at h ⊢
      simp only [Bool.or_eq_true, h]
      constructor
      · rintro ((hc | ⟨k, hk, hx⟩) | hx)
        · exact Or.inl hc
        · exact Or.inr ⟨k, by omega, hx⟩
        · exact Or.inr ⟨st.tests, by omega, hx⟩
      · rintro (hc | ⟨k, hk, hx⟩)
        · exact Or.inl (Or.inl hc)
        · by_cases hk2 : k < st.tests
          · exact Or.inl (Or.inr ⟨k, hk2, hx⟩)
          · have : k = st.tests := by omega
            subst this
            exact Or.inr hx
    cases hf : s.fault with
    | some r =>
      obtain ⟨body, op, _, _, _, b4⟩ := copy_loop_fault W n s rest st r hf
      rw [b4]; exact h
    | none =>
      have hs := fault_none_ok s hf
      by_cases hd : (dispatch W n s.hdr s.payload 0 st.targets).ret = 0
      · rw [copy_loop_step W n s rest st hs hd]
        split_ifs
        · exact ih _ _ hnext
        · exact hnext
      · rw [copy_loop_dispatch_fail W n s rest st hs hd]
        exact h

theorem finish_eq (W : World) (copy : copy_s) (st : State)
    (hb : st.targets.map (fun t => (t.buffer, t.type)) =
      copy.copy_target.map (fun t => (t.buffer, t.type))) :
    finish W copy st =
      { cancel := st.cancel || W.ext_cancel st.tests, tests := st.tests + 1,
        trace := st.trace ++ Event.packet_destroy ::
          cleanup_calls copy (st.cancel || W.ext_cancel st.tests),
        targets := st.targets } := by
  have hbuf : st.targets.map (fun t => Event.buffer_cancel t.buffer) =
      copy.copy_target.map (fun t => Event.buffer_cancel t.buffer) := by
    have := congrArg (List.map (fun p : Nat × Nat => Event.buffer_cancel p.1)) hb
    simpa [List.map_map, Function.comp] using this
  unfold finish cleanup_calls
  simp only [glc_state_test, State.emit]
  split_ifs <;> simp [hbuf]

theorem finish_flag (W : World) (copy : copy_s) (st : State) (h : flag_external W st) :
    flag_external W (finish W copy st) := by
  have hc : (finish W copy st).cancel = (st.cancel || W.ext_cancel st.tests) ∧
      (finish W copy st).tests = st.tests + 1 := by
    unfold finish; simp only [glc_state_test, State.emit]; split_ifs <;> exact ⟨rfl, rfl⟩
  unfold flag_external at h ⊢
  rw [hc.1, hc.2]
  simp only [Bool.or_eq_true, h]
  constructor
  · rintro ((hc | ⟨k, hk, hx⟩) | hx)
    · exact Or.inl hc
    · exact Or.inr ⟨k, by omega, hx⟩
    · exact Or.inr ⟨st.tests, by omega, hx⟩
  · rintro (hc | ⟨k, hk, hx⟩)
    · exact Or.inl (Or.inl hc)
    · by_cases hk2 : k < st.tests
      · exact Or.inl (Or.inr ⟨k, hk2, hx⟩)
      · have : k = st.tests := by omega
        subst this
        exact Or.inr hx

theorem err_eq (r : Nat) (st : State) :
    err r st = { st with cancel := (if r = EINTR then st.cancel else true),
                         trace := st.trace ++ reports r } := by
  unfold err reports
  split_ifs <;> simp_all

/-- The worker after the loop has been left through `err` with code `r` in state `st`. -/
theorem finish_err (W : World) (copy : copy_s) (st : State) (r : Nat)
    (hb : st.targets.map (fun t => (t.buffer, t.type)) =
      copy.copy_target.map (fun t => (t.buffer, t.type))) :
    (finish W copy (err r st)).trace =
      st.trace ++ (reports r ++ Event.packet_destroy ::
        cleanup_calls copy (finish W copy (err r st)).cancel) ∧
    (r ≠ EINTR → (finish W copy (err r st)).cancel = true) ∧
    (r = EINTR → (finish W copy (err r st)).cancel = (st.cancel || W.ext_cancel st.tests)) := by
  have hb2 : (err r st).targets.map (fun t => (t.buffer, t.type)) =
      copy.copy_target.map (fun t => (t.buffer, t.type)) := by rw [err_targets]; exact hb
  rw [finish_eq W copy (err r st) hb2]
  rw [err_eq]
  refine ⟨by simp, ?_, ?_⟩
  · intro hr; simp [hr]
  · intro hr; simp [hr]

/-- Shape of the trace of a whole run: calls that passed; then, when the loop is left through
`err` with code `r`, the one tested call that returned `r` and the calls of `err`; then, unless
the worker is blocked, the destroy and the cancels of `finish`. -/
theorem copy_thread_trace (W : World) (copy : copy_s) :
    ∃ body, (∀ x ∈ body, Event.passed x = true) ∧
      ((copy_thread W copy).1 = Exit.blocked → (copy_thread W copy).2.trace = body) ∧
      ((copy_thread W copy).1 = Exit.finished →
        (copy_thread W copy).2.trace =
          body ++ Event.packet_destroy :: cleanup_calls copy (copy_thread W copy).2.cancel) ∧
      (∀ r, (copy_thread W copy).1 = Exit.failed r →
        r ≠ 0 ∧ (r ≠ EINTR → (copy_thread W copy).2.cancel = true) ∧
        ∃ op, Event.checked_ret op = some r ∧
          (copy_thread W copy).2.trace =
            body ++ op :: (reports r ++ Event.packet_destroy ::
              cleanup_calls copy (copy_thread W copy).2.cancel)) := by
  by_cases hi : W.init_ret = 0
  · obtain ⟨body, b1, b2, b3⟩ := copy_loop_trace W W.source 0 (start_state W copy)
    have hb := copy_loop_buffers W W.source 0 (start_state W copy)
    have hpk : Event.passed (Event.packet_init 0) = true := rfl
    have hbody : ∀ x ∈ Event.packet_init 0 :: body, Event.passed x = true := by
      intro x hx
      simp only [List.mem_cons] at hx
      rcases hx with rfl | hx
      · exact hpk
      · exact b1 x hx
    cases hl : copy_loop W 0 W.source (start_state W copy) with
    | mk e st =>
      rw [hl] at b2 b3 hb
      simp only [] at b2 b3 hb
      cases e with
      | blocked =>
        have hct : copy_thread W copy = (Exit.blocked, st) := by
          simp [copy_thread, hi, hl]
        rw [hct]
        refine ⟨Event.packet_init 0 :: body, hbody, ?_, ?_, ?_⟩
        · intro _
          simp only []
          rw [b2 (by simp)]
          simp [start_state, hi]
        · intro h; simp at h
        · intro r h; simp at h
      | finished =>
        have hct : copy_thread W copy = (Exit.finished, finish W copy st) := by
          simp [copy_thread, hi, hl]
        rw [hct]
        refine ⟨Event.packet_init 0 :: body, hbody, ?_, ?_, ?_⟩
        · intro h; simp at h
        · intro _
          simp only []
          rw [finish_eq W copy st hb, b2 (by simp)]
          simp [start_state, hi]
        · intro r h; simp at h
      | failed r0 =>
        have hct : copy_thread W copy = (Exit.failed r0, finish W copy (err r0 st)) := by
          simp [copy_thread, hi, hl]
        rw [hct]
        refine ⟨Event.packet_init 0 :: body, hbody, ?_, ?_, ?_⟩
        · intro h; simp at h
        · intro h; simp at h
        · intro r h
          simp only [Exit.failed.injEq] at h
          subst h
          obtain ⟨c1, op, c2, c3⟩ := b3 r0 rfl
          obtain ⟨f1, f2, _⟩ := finish_err W copy st r0 hb
          refine ⟨c1, f2, op, c2, ?_⟩
          simp only []
          rw [f1, c3]
          simp [start_state, hi]
  · have hb : (start_state W copy).targets.map (fun t => (t.buffer, t.type)) =
        copy.copy_target.map (fun t => (t.buffer, t.type)) := rfl
    obtain ⟨f1, f2, _⟩ := finish_err W copy (start_state W copy) W.init_ret hb
    refine ⟨[], by simp, ?_, ?_, ?_⟩
    all_goals
      unfold copy_thread
      simp only [hi, ne_eq, not_false_eq_true, if_true]
    · intro h; simp at h
    · intro h; simp at h
    · intro r h
      simp only [Exit.failed.injEq] at h
      subst h
      refine ⟨hi, f2, Event.packet_init W.init_ret, rfl, ?_⟩
      rw [f1]
      simp [start_state]

/-! ## What follows a failing call -/

theorem passed_of_checked (e : Event) (r : Nat) (h : Event.checked_ret e = some r)
    (hp : Event.passed e = true) : r = 0 := by
  cases e <;> simp_all [Event.checked_ret, Event.passed]

theorem passed_quiet (e : Event) (hp : Event.passed e = true) :
    Event.is_report e = false ∧ Event.is_cancel e = false := by
  cases e <;> simp_all [Event.checked_ret, Event.passed, Event.is_report, Event.is_cancel]

theorem checked_quiet (e : Event) (r : Nat) (h : Event.checked_ret e = some r) :
    Event.is_report e = false ∧ Event.is_cancel e = false := by
  cases e <;> simp_all [Event.checked_ret, Event.is_report, Event.is_cancel]

theorem cleanup_calls_cancel (copy : copy_s) (c : Bool) :
    ∀ x ∈ cleanup_calls copy c,
      Event.is_cancel x = true ∧ Event.is_report x = false ∧ Event.checked_ret x = none := by
  intro x hx
  unfold cleanup_calls at hx
  split_ifs at hx
  · simp only [List.mem_cons, List.mem_map] at hx
    rcases hx with rfl | ⟨t, _, rfl⟩ <;> exact ⟨rfl, rfl, rfl⟩
  · simp at hx

theorem reports_quiet (r : Nat) :
    ∀ x ∈ reports r,
      Event.is_report x = true ∧ Event.is_cancel x = false ∧ Event.checked_ret x = none := by
  intro x hx
  unfold reports at hx
  split_ifs at hx
  · simp at hx
  · simp only [List.mem_cons, List.mem_singleton, List.not_mem_nil, or_false] at hx
    rcases hx with rfl | rfl <;> exact ⟨rfl, rfl, rfl⟩

/-- In a list made of passed calls, one call, and calls that carry no tested result, the only
place where a tested call with a nonzero result can stand is the one in the middle. -/
theorem split_at_failure (r : Nat) (op e : Event) (tail post : List Event) :
    ∀ (body pre : List Event),
      body ++ op :: tail = pre ++ e :: post →
      (∀ x ∈ body, Event.passed x = true) →
      (∀ x ∈ tail, Event.checked_ret x = none) →
      Event.checked_ret e = some r → r ≠ 0 →
      pre = body ∧ e = op ∧ post = tail := by
  intro body
  induction body with
  | nil =>
    intro pre h _ htail he _
    cases pre with
    | nil =>
      simp only [List.nil_append, List.cons.injEq] at h
      exact ⟨rfl, h.1.symm, h.2.symm⟩
    | cons p ps =>
      simp only [List.nil_append, List.cons_append, List.cons.injEq] at h
      have hmem : e ∈ tail := by rw [h.2]; simp
      rw [htail e hmem] at he
      simp at he
  | cons b bs ih =>
    intro pre h hbody htail he hr
    cases pre with
    | nil =>
      simp only [List.nil_append, List.cons_append, List.cons.injEq] at h
      have hb := hbody b (List.mem_cons_self _ _)
      rw [h.1] at hb
      exact absurd (passed_of_checked e r he hb) hr
    | cons p ps =>
      simp only [List.cons_append, List.cons.injEq] at h
      obtain ⟨h1, h2, h3⟩ := ih ps h.2 (fun x hx => hbody x (List.mem_cons_of_mem _ hx)) htail he hr
      exact ⟨by rw [h.1, h1], h2, h3⟩

theorem filter_none (p : Event → Bool) (l : List Event) (h : ∀ x ∈ l, p x = false) :
    l.filter p = [] := by
  rw [List.filter_eq_nil_iff]
  intro x hx
  simp [h x hx]

theorem filter_all (p : Event → Bool) (l : List Event) (h : ∀ x ∈ l, p x = true) :
    l.filter p = l := by
  rw [List.filter_eq_self]
  exact h

/-- A tested call with a nonzero result `r` stands in the trace of a run only as the call that
made the worker jump to `err`: the calls before it passed, and after it come the calls of `err`
for `r`, the destroy and the cancels of `finish`. -/
theorem failure_shape (W : World) (copy : copy_s) (pre post : List Event) (e : Event) (r : Nat)
    (htr : (copy_thread W copy).2.trace = pre ++ e :: post)
    (he : Event.checked_ret e = some r) (hr : r ≠ 0) :
    (copy_thread W copy).1 = Exit.failed r ∧
    (∀ x ∈ pre, Event.passed x = true) ∧
    post = reports r ++ Event.packet_destroy ::
      cleanup_calls copy (copy_thread W copy).2.cancel ∧
    (r ≠ EINTR → (copy_thread W copy).2.cancel = true) := by
  obtain ⟨body, b1, b2, b3, b4⟩ := copy_thread_trace W copy
  have hnp : Event.passed e = false := by
    by_contra hp
    simp only [Bool.not_eq_false] at hp
    exact hr (passed_of_checked e r he hp)
  have hmem : e ∈ (copy_thread W copy).2.trace := by rw [htr]; simp
  cases hx : (copy_thread W copy).1 with
  | blocked =>
    rw [b2 hx] at hmem
    rw [b1 e hmem] at hnp
    simp at hnp
  | finished =>
    rw [b3 hx] at hmem
    simp only [List.mem_append, List.mem_cons] at hmem
    rcases hmem with hm | rfl | hm
    · rw [b1 e hm] at hnp; simp at hnp
    · simp [Event.checked_ret] at he
    · rw [(cleanup_calls_cancel copy _ e hm).2.2] at he; simp at he
  | failed r0 =>
    obtain ⟨c1, c2, op, c3, c4⟩ := b4 r0 hx
    rw [c4] at htr
    have htail : ∀ x ∈ reports r0 ++ Event.packet_destroy ::
        cleanup_calls copy (copy_thread W copy).2.cancel, Event.checked_ret x = none := by
      intro x hx
      simp only [List.mem_append, List.mem_cons] at hx
      rcases hx with hm | rfl | hm
      · exact (reports_quiet r0 x hm).2.2
      · rfl
      · exact (cleanup_calls_cancel copy _ x hm).2.2
    obtain ⟨s1, s2, s3⟩ := split_at_failure r op e _ post body pre htr b1 htail he hr
    subst s2
    rw [c3] at he
    simp only [Option.some.injEq] at he
    subst he
    exact ⟨rfl, by rw [s1]; exact b1, s3, c2⟩

/-- The cancels made in a run that is not blocked are those of `finish`. -/
theorem copy_thread_cancels (W : World) (copy : copy_s)
    (h : (copy_thread W copy).1 ≠ Exit.blocked) :
    (copy_thread W copy).2.trace.filter Event.is_cancel =
      cleanup_calls copy (copy_thread W copy).2.cancel := by
  obtain ⟨body, b1, _, b3, b4⟩ := copy_thread_trace W copy
  have hbody : body.filter Event.is_cancel = [] :=
    filter_none _ _ (fun x hx => (passed_quiet x (b1 x hx)).2)
  have hclean := filter_all Event.is_cancel (cleanup_calls copy (copy_thread W copy).2.cancel)
    (fun x hx => (cleanup_calls_cancel copy _ x hx).1)
  cases hx : (copy_thread W copy).1 with
  | blocked => exact absurd hx h
  | finished =>
    rw [b3 hx]
    simp [List.filter_append, List.filter_cons, hbody, hclean, Event.is_cancel]
  | failed r0 =>
    obtain ⟨_, _, op, c3, c4⟩ := b4 r0 hx
    rw [c4]
    have hrep : (reports r0).filter Event.is_cancel = [] :=
      filter_none _ _ (fun x hx => (reports_quiet r0 x hx).2.1)
    have hop := (checked_quiet op r0 c3).2
    have hd : Event.is_cancel Event.packet_destroy = false := rfl
    simp [List.filter_append, List.filter_cons, hbody, hclean, hrep, hop, hd]

/-- The log and state-set calls made in a run that is left through `err` with code `r` are
those of `err` for `r`; a run that is not left through `err` makes none. -/
theorem copy_thread_reports (W : World) (copy : copy_s) :
    (∀ r, (copy_thread W copy).1 = Exit.failed r →
      (copy_thread W copy).2.trace.filter Event.is_report = reports r) ∧
    ((∀ r, (copy_thread W copy).1 ≠ Exit.failed r) →
      (copy_thread W copy).2.trace.filter Event.is_report = []) := by
  obtain ⟨body, b1, b2, b3, b4⟩ := copy_thread_trace W copy
  have hbody : body.filter Event.is_report = [] :=
    filter_none _ _ (fun x hx => (passed_quiet x (b1 x hx)).1)
  have hclean : (cleanup_calls copy (copy_thread W copy).2.cancel).filter Event.is_report = [] :=
    filter_none _ _ (fun x hx => (cleanup_calls_cancel copy _ x hx).2.1)
  constructor
  · intro r0 hx
    obtain ⟨_, _, op, c3, c4⟩ := b4 r0 hx
    rw [c4]
    have hrep := filter_all Event.is_report (reports r0) (fun x hx => (reports_quiet r0 x hx).1)
    have hop := (checked_quiet op r0 c3).1
    have hd : Event.is_report Event.packet_destroy = false := rfl
    simp [List.filter_append, List.filter_cons, hbody, hclean, hrep, hop, hd]
  · intro hne
    cases hx : (copy_thread W copy).1 with
    | blocked => rw [b2 hx]; exact hbody
    | finished =>
      rw [b3 hx]
      simp [List.filter_append, List.filter_cons, hbody, hclean, Event.is_report]
    | failed r0 => exact absurd hx (hne r0)

/-- Unless the worker goes through `err` with a code other than `EINTR`, the flag it sees at the
end is set only if it was set at start or by another stage. -/
theorem copy_thread_flag (W : World) (copy : copy_s)
    (h : ∀ r, (copy_thread W copy).1 = Exit.failed r → r = EINTR) :
    flag_external W (copy_thread W copy).2 := by
  have h0 : flag_external W (start_state W copy) := by
    unfold flag_external start_state; simp
  by_cases hi : W.init_ret = 0
  · have hl := copy_loop_flag W W.source 0 (start_state W copy) h0
    cases hc : copy_loop W 0 W.source (start_state W copy) with
    | mk e st =>
      rw [hc] at hl
      simp only [] at hl
      cases e with
      | blocked =>
        have hct : copy_thread W copy = (Exit.blocked, st) := by simp [copy_thread, hi, hc]
        rw [hct]; exact hl
      | finished =>
        have hct : copy_thread W copy = (Exit.finished, finish W copy st) := by
          simp [copy_thread, hi, hc]
        rw [hct]; exact finish_flag W copy st hl
      | failed r0 =>
        have hct : copy_thread W copy = (Exit.failed r0, finish W copy (err r0 st)) := by
          simp [copy_thread, hi, hc]
        rw [hct] at h ⊢
        have hr : r0 = EINTR := h r0 rfl
        have herr : err r0 st = st := by simp [err, hr]
        simp only [herr]
        exact finish_flag W copy st hl
  · have hct : copy_thread W copy =
        (Exit.failed W.init_ret, finish W copy (err W.init_ret (start_state W copy))) := by
      simp [copy_thread, hi]
    rw [hct] at h ⊢
    have hr : W.init_ret = EINTR := h _ rfl
    have herr : err W.init_ret (start_state W copy) = start_state W copy := by simp [err, hr]
    simp only [herr]
    exact finish_flag W copy _ h0

/-! ## Failures -/

/-- C3 (amended): if, after a first message has been relayed, a source operation of the second
iteration fails with a code `r` other than `EINTR`, the worker leaves through `err` with `r`, the
cancel flag is set when it exits, every registry entry holds the first message if its filter
accepts it and nothing more, and the cancel calls are: one on the source buffer, then one per
registry entry on the buffer of that entry.  Hence when the source buffer and the buffers of the
entries are pairwise distinct each of them gets exactly one cancel call. -/
theorem source_fault_after_first (W : World) (copy : copy_s)
    (s0 s1 : SrcStep) (rest : List SrcStep) (r : Nat)
    (hsrc : W.source = s0 :: s1 :: rest)
    (hinit : W.init_ret = 0)
    (h0 : s0.ok) (htgt : ∀ i op, W.tgt_ret 0 i op = 0)
    (hnc : s0.hdr.type ≠ W.GLC_MESSAGE_CLOSE)
    (hc0 : W.cancel0 = false) (hext : W.ext_cancel 0 = false)
    (h1 : s1.fault = some r) (hr : r ≠ EINTR) :
    (copy_thread W copy).1 = Exit.failed r ∧
    (copy_thread W copy).2.cancel = true ∧
    (copy_thread W copy).2.targets = copy.copy_target.map (relay s0.hdr s0.payload) ∧
    (copy_thread W copy).2.trace.filter Event.is_cancel =
      Event.buffer_cancel copy.from_ ::
        copy.copy_target.map (fun t => Event.buffer_cancel t.buffer) ∧
    ((copy.from_ :: copy.copy_target.map (fun t => t.buffer)).Nodup →
      ∀ b ∈ copy.from_ :: copy.copy_target.map (fun t => t.buffer),
        (copy_thread W copy).2.trace.count (Event.buffer_cancel b) = 1) := by
  obtain ⟨d1, d2⟩ := dispatch_ok W 0 s0.hdr s0.payload copy.copy_target 0 htgt
  have hloop : (copy_loop W 0 W.source (start_state W copy)).1 = Exit.failed r ∧
      (copy_loop W 0 W.source (start_state W copy)).2.targets =
        copy.copy_target.map (relay s0.hdr s0.payload) := by
    rw [hsrc, copy_loop_step W 0 s0 (s1 :: rest) (start_state W copy) h0 d1]
    have hcond : ((start_state W copy).cancel || W.ext_cancel (start_state W copy).tests) = false ∧
        s0.hdr.type ≠ W.GLC_MESSAGE_CLOSE := by
      simp [start_state, hc0, hext, hnc]
    rw [if_pos hcond]
    obtain ⟨body, op, _, _, _, b4⟩ := copy_loop_fault W (0 + 1) s1 rest
      { cancel := (start_state W copy).cancel || W.ext_cancel (start_state W copy).tests,
        tests := (start_state W copy).tests + 1,
        trace := (start_state W copy).trace ++ ([Event.src_open 0, Event.src_read 0,
          Event.src_getsize 0, Event.src_dma 0] ++
          (dispatch W 0 s0.hdr s0.payload 0 (start_state W copy).targets).events ++
          [Event.src_close s0.close_ret]),
        targets := (dispatch W 0 s0.hdr s0.payload 0 (start_state W copy).targets).targets }
      r h1
    rw [b4]
    exact ⟨rfl, d2⟩
  have hexit : (copy_thread W copy).1 = Exit.failed r := by
    rw [copy_thread_exit W copy hinit]; exact hloop.1
  obtain ⟨_, _, _, _, b4⟩ := copy_thread_trace W copy
  have hcancel : (copy_thread W copy).2.cancel = true := (b4 r hexit).2.1 hr
  have hcalls : (copy_thread W copy).2.trace.filter Event.is_cancel =
      Event.buffer_cancel copy.from_ ::
        copy.copy_target.map (fun t => Event.buffer_cancel t.buffer) := by
    rw [copy_thread_cancels W copy (by rw [hexit]; simp), hcancel]
    simp [cleanup_calls]
  refine ⟨hexit, hcancel, ?_, hcalls, ?_⟩
  · rw [copy_thread_targets W copy hinit]; exact hloop.2
  · intro hnd b hb
    have hfil : (copy_thread W copy).2.trace.count (Event.buffer_cancel b) =
        ((copy_thread W copy).2.trace.filter Event.is_cancel).count (Event.buffer_cancel b) :=
      (List.count_filter (by rfl)).symm
    have hmap : Event.buffer_cancel copy.from_ ::
        copy.copy_target.map (fun t => Event.buffer_cancel t.buffer) =
        (copy.from_ :: copy.copy_target.map (fun t => t.buffer)).map Event.buffer_cancel := by
      simp [List.map_map, Function.comp]
    have hinj : Function.Injective Event.buffer_cancel := by
      intro a c hac
      simpa using hac
    rw [hfil, hcalls, hmap, List.count_map_of_injective _ _ hinj]
    exact List.count_eq_one_of_mem hnd hb

/-- C3 (amended) at a run with two distinct target buffers: the second source read fails with
code 5. -/
theorem source_fault_after_first_witness :
    (read_fault_world.source = [msg 3 [7, 8], { msg 5 [9] with read_ret := 5 }] ∧
      SrcStep.fault { msg 5 [9] with read_ret := 5 } = some 5 ∧ 5 ≠ EINTR) ∧
    (copy_thread read_fault_world scenario_copy).1 = Exit.failed 5 ∧
    (copy_thread read_fault_world scenario_copy).2.cancel = true ∧
    (copy_thread read_fault_world scenario_copy).2.trace.filter Event.is_cancel =
      [Event.buffer_cancel 1, Event.buffer_cancel 20, Event.buffer_cancel 10] :=
  have h := source_fault_after_first read_fault_world scenario_copy (msg 3 [7, 8])
    { msg 5 [9] with read_ret := 5 } [] 5 rfl rfl (by decide) (fun _ _ => rfl) (by decide) rfl rfl
    (by decide) (by decide)
  ⟨⟨rfl, by decide, by decide⟩, h.1, h.2.1, h.2.2.2.1⟩

/-- C3 as stated fails: with buffer 10 registered twice, a source read that fails with code 5
after one message makes the worker cancel buffer 10 twice. -/
theorem source_fault_counterexample :
    shared_buffer_copy.copy_target.map (fun t => t.buffer) = [10, 10] ∧
    SrcStep.fault { msg 5 [9] with read_ret := 5 } = some 5 ∧ 5 ≠ EINTR ∧
    (copy_thread read_fault_world shared_buffer_copy).1 = Exit.failed 5 ∧
    (copy_thread read_fault_world shared_buffer_copy).2.trace.count (Event.buffer_cancel 10) = 2 ∧
    (copy_thread read_fault_world shared_buffer_copy).2.trace.count (Event.buffer_cancel 10) ≠ 1 := by
  decide

/-- C7 (amended): if an operation on the cursor of a registry entry returns `EINTR` in a run (as
it does once the buffer of that entry has been cancelled by somebody else), the worker leaves
through `err` with `EINTR`: it makes no log and no state-set call, so the flag at exit is set
only if it was set at start or by another stage; if the flag is clear at exit no buffer is
cancelled, and if it is set the worker cancels the source buffer once and then the buffer of
every registry entry, the failed one included, once per entry. -/
theorem interrupted_target_write (W : World) (copy : copy_s) (e : Event) (i : Nat)
    (hmem : e ∈ (copy_thread W copy).2.trace)
    (_htgt : Event.target e = some i)
    (hret : Event.checked_ret e = some EINTR) :
    (copy_thread W copy).1 = Exit.failed EINTR ∧
    (copy_thread W copy).2.trace.filter Event.is_report = [] ∧
    flag_external W (copy_thread W copy).2 ∧
    ((copy_thread W copy).2.cancel = false →
      (copy_thread W copy).2.trace.filter Event.is_cancel = []) ∧
    ((copy_thread W copy).2.cancel = true →
      (copy_thread W copy).2.trace.filter Event.is_cancel =
        Event.buffer_cancel copy.from_ ::
          copy.copy_target.map (fun t => Event.buffer_cancel t.buffer)) := by
  obtain ⟨pre, post, htr⟩ := List.append_of_mem hmem
  obtain ⟨h1, _, _, _⟩ := failure_shape W copy pre post e EINTR htr hret (by decide)
  have hrep := (copy_thread_reports W copy).1 EINTR h1
  have hcan := copy_thread_cancels W copy (by rw [h1]; simp)
  refine ⟨h1, by rw [hrep]; simp [reports], ?_, ?_, ?_⟩
  · apply copy_thread_flag
    intro r2 hr2
    rw [h1] at hr2
    simp only [Exit.failed.injEq] at hr2
    exact hr2.symm
  · intro hc; rw [hcan, hc]; simp [cleanup_calls]
  · intro hc; rw [hcan, hc]; simp [cleanup_calls]

/-- C7 (amended) at a run where the buffer of the entry at position 1 is cancelled from outside
after the first message and nobody sets the flag. -/
theorem interrupted_target_write_witness :
    (Event.tgt_open 1 EINTR ∈ (copy_thread interrupted_world scenario_copy).2.trace) ∧
    (copy_thread interrupted_world scenario_copy).1 = Exit.failed EINTR ∧
    (copy_thread interrupted_world scenario_copy).2.trace.filter Event.is_report = [] :=
  have h := interrupted_target_write interrupted_world scenario_copy (Event.tgt_open 1 EINTR) 1
    (by decide) rfl rfl
  ⟨by decide, h.1, h.2.1⟩

/-- C7 as stated fails: the buffer of the entry at position 1 (buffer 10) is cancelled from
outside after the first message, the next open on it returns `EINTR`, and the worker exits with
the flag clear and without cancelling the source buffer 1 or the other target buffer 20. -/
theorem interrupted_counterexample :
    (∀ op, interrupted_world.tgt_ret 1 1 op = EINTR) ∧
    Event.tgt_open 1 EINTR ∈ (copy_thread interrupted_world scenario_copy).2.trace ∧
    (copy_thread interrupted_world scenario_copy).1 = Exit.failed EINTR ∧
    (copy_thread interrupted_world scenario_copy).2.cancel = false ∧
    (copy_thread interrupted_world scenario_copy).2.trace.count (Event.buffer_cancel 1) = 0 ∧
    (copy_thread interrupted_world scenario_copy).2.trace.count (Event.buffer_cancel 20) = 0 := by
  refine ⟨fun op => by cases op <;> rfl, ?_, ?_, ?_, ?_, ?_⟩ <;> decide

/-! ## Lifecycle -/

theorem call_consistent (s : Sys) (c : Call) (h : s.consistent) : (s.call c).consistent := by
  obtain ⟨h1, h2⟩ := h
  cases c with
  | add target type => exact ⟨h1, h2⟩
  | start create_ret from_ =>
    unfold Sys.call copy_process_start pthread_create Sys.consistent
    cases hr : s.copy.running with
    | true =>
      simp only [if_true]
      exact ⟨fun hf => by rw [hr] at hf; simp at hf, fun _ => h2 hr⟩
    | false =>
      have ha := h1 hr
      by_cases hc : create_ret = 0
      · simp [hc, ha]
      · simp [hc, ha]
  | wait W =>
    unfold Sys.call copy_process_wait pthread_join Sys.consistent
    cases hr : s.copy.running with
    | false =>
      simp only [Bool.not_false, if_true]
      exact ⟨fun _ => h1 hr, fun hf => by rw [hr] at hf; simp at hf⟩
    | true =>
      obtain ⟨f, hf⟩ := h2 hr
      by_cases hb : (copy_thread W s.copy).1 = Exit.blocked
      · simp only [hb, Bool.not_true, if_true]
        simp only [Bool.false_eq_true, if_false]
        exact ⟨fun hx => by rw [hr] at hx; simp at hx, fun _ => ⟨f, hf⟩⟩
      · simp [hb, hf]

theorem calls_consistent (cs : List Call) : ∀ s : Sys, s.consistent → (s.calls cs).consistent := by
  induction cs with
  | nil => intro s h; exact h
  | cons c cs ih =>
    intro s h
    unfold Sys.calls
    simp only [List.foldl_cons]
    exact ih (s.call c) (call_consistent s c h)

theorem consistent_alive (s : Sys) (h : s.consistent) : s.threads.alive.length ≤ 1 := by
  obtain ⟨h1, h2⟩ := h
  cases hr : s.copy.running with
  | false => rw [h1 hr]; simp
  | true =>
    obtain ⟨f, hf⟩ := h2 hr
    rw [hf]; simp

/-- C5 (amended): while a worker is active `copy_process_start` returns `EALREADY` and changes
neither the instance nor the threads; while none is active and thread creation succeeds it
returns 0, binds the given source, adds exactly one worker bound to that source and sets the
running flag; while none is active and thread creation fails with `create_ret` it returns that
code, adds no worker and leaves the running flag clear (the source field is overwritten).  Over
every sequence of add, start and wait calls on a new instance at most one worker is alive. -/
theorem start_exclusive (create_ret : Nat) (copy : copy_s) (T : Threads) (from_ : Nat) :
    (copy.running = true →
      copy_process_start create_ret copy T from_ = (EALREADY, copy, T)) ∧
    (copy.running = false → create_ret = 0 →
      copy_process_start create_ret copy T from_ =
        (0, { copy with from_ := from_, copy_thread := T.next, running := true },
          { alive := ⟨T.next, from_⟩ :: T.alive, next := T.next + 1 })) ∧
    (copy.running = false → create_ret ≠ 0 →
      copy_process_start create_ret copy T from_ =
        (create_ret, { copy with from_ := from_ }, T)) ∧
    (∀ cs : List Call, (Sys.init.calls cs).threads.alive.length ≤ 1) := by
  refine ⟨?_, ?_, ?_, ?_⟩
  · intro h; simp [copy_process_start, h]
  · intro h hc; simp [copy_process_start, pthread_create, h, hc]
  · intro h hc; simp [copy_process_start, pthread_create, h, hc]
  · intro cs
    apply consistent_alive
    apply calls_consistent
    exact ⟨fun _ => rfl, fun h => by simp [Sys.init, copy_init] at h⟩

/-- C5 (amended) at a second start while the worker of the first start is active, and at a
first start on a new instance. -/
theorem start_exclusive_witness :
    (running_sys.copy.running = true ∧ copy_init.running = false) ∧
    copy_process_start 0 running_sys.copy running_sys.threads 2 =
      (EALREADY, running_sys.copy, running_sys.threads) ∧
    copy_process_start 0 copy_init Sys.init.threads 7 =
      (0, { copy_init with from_ := 7, copy_thread := 1, running := true },
        { alive := [⟨1, 7⟩], next := 2 }) ∧
    copy_process_start 11 copy_init Sys.init.threads 7 =
      (11, { copy_init with from_ := 7 }, Sys.init.threads) :=
  ⟨⟨rfl, rfl⟩,
   (start_exclusive 0 running_sys.copy running_sys.threads 2).1 rfl,
   (start_exclusive 0 copy_init Sys.init.threads 7).2.1 rfl rfl,
   (start_exclusive 11 copy_init Sys.init.threads 7).2.2.1 rfl (by decide)⟩

/-- C5 as stated fails when thread creation fails: called on a new instance, with no worker
active, while `pthread_create` returns 11, start returns 11, no worker exists and the instance
is not marked running. -/
theorem start_create_failure_counterexample :
    copy_init.running = false ∧
    (copy_process_start 11 copy_init Sys.init.threads 7).1 = 11 ∧
    (copy_process_start 11 copy_init Sys.init.threads 7).2.1.running = false ∧
    (copy_process_start 11 copy_init Sys.init.threads 7).2.2.alive = [] := by
  decide

/-- C6: with no worker active `copy_process_wait` returns `EAGAIN` at once, whatever a worker
would do, and changes neither the instance nor the threads; with a worker active it returns
only if the worker leaves `copy_thread`, and then it returns 0, whichever way and with whichever
code the worker left, the running flag is cleared and the worker is joined. -/
theorem wait_joins (W : World) (copy : copy_s) (T : Threads) :
    (copy.running = false → copy_process_wait W copy T = some (EAGAIN, copy, T)) ∧
    (copy.running = true → (copy_thread W copy).1 ≠ Exit.blocked →
      copy_process_wait W copy T =
        some (0, { copy with running := false },
          { T with alive := T.alive.filter (fun w => w.tid ≠ copy.copy_thread) })) ∧
    (copy.running = true → (copy_thread W copy).1 = Exit.blocked →
      copy_process_wait W copy T = none) := by
  refine ⟨?_, ?_, ?_⟩
  · intro h; simp [copy_process_wait, h]
  · intro h hb; simp [copy_process_wait, pthread_join, h, hb]
  · intro h hb; simp [copy_process_wait, pthread_join, h, hb]

/-- C6 at a wait on a new instance, and at a wait on a running instance whose worker ends
through `err` with code 5. -/
theorem wait_joins_witness :
    (copy_init.running = false ∧ running_sys.copy.running = true ∧
      (copy_thread read_fault_world running_sys.copy).1 = Exit.failed 5) ∧
    copy_process_wait scenario_world copy_init Sys.init.threads =
      some (EAGAIN, copy_init, Sys.init.threads) ∧
    copy_process_wait read_fault_world running_sys.copy running_sys.threads =
      some (0, { running_sys.copy with running := false }, { alive := [], next := 2 }) :=
  ⟨⟨rfl, rfl, by decide⟩,
   (wait_joins scenario_world copy_init Sys.init.threads).1 rfl,
   ((wait_joins read_fault_world running_sys.copy running_sys.threads).2.1 rfl
      (by decide)).trans (by decide)⟩

/-! ## One delivery -/

/-- Outcome of one delivery: with result 0 the buffer has received the complete message and
the cursor is closed; with a nonzero result nothing has been handed to the buffer, and the
cursor is untouched if the open failed and otherwise open, holding nothing, the header only, or
the header and the payload. -/
theorem deliver_cases (W : World) (n i : Nat) (h : glc_message_header_t) (data : List Nat)
    (t : copy_target_s) :
    ((deliver W n i h data t).ret = 0 →
      (deliver W n i h data t).target =
        { t with packet :=
            { opened := false, pending := [],
              committed := t.packet.committed ++ [[Chunk.header h, Chunk.bytes data]] } }) ∧
    ((deliver W n i h data t).ret ≠ 0 →
      (deliver W n i h data t).target.packet.committed = t.packet.committed ∧
      (W.tgt_ret n i TgtOp.op_open ≠ 0 → (deliver W n i h data t).target.packet = t.packet) ∧
      (W.tgt_ret n i TgtOp.op_open = 0 →
        (deliver W n i h data t).target.packet.opened = true ∧
        ((deliver W n i h data t).target.packet.pending = [] ∨
         (deliver W n i h data t).target.packet.pending = [Chunk.header h] ∨
         (deliver W n i h data t).target.packet.pending =
           [Chunk.header h, Chunk.bytes data]))) := by
  unfold deliver
  simp only []
  split_ifs with h1 h2 h3
  · simp [h1, ps_packet_open]
  · simp only [ne_eq, not_not] at h1
    simp [h1, h2, ps_packet_open, ps_packet_write]
  · simp only [ne_eq, not_not] at h1 h2
    simp [h1, h2, h3, ps_packet_open, ps_packet_write]
  · simp only [ne_eq, not_not] at h1 h2 h3
    by_cases h4 : W.tgt_ret n i TgtOp.op_close = 0
    · simp [h1, h2, h3, h4, ps_packet_open, ps_packet_write, ps_packet_close]
    · simp [h1, h2, h3, h4, ps_packet_open, ps_packet_write, ps_packet_close]

/-- A dispatch that fails splits the registry at the first entry whose delivery fails: the
entries before it got the message if their filter accepts it, the entries after it are
untouched, and no call is made on an entry after it. -/
theorem dispatch_split (W : World) (n : Nat) (h : glc_message_header_t) (data : List Nat) :
    ∀ (ts : List copy_target_s) (i : Nat), (dispatch W n h data i ts).ret ≠ 0 →
      ∃ pre t post, ts = pre ++ t :: post ∧ accepts t h = true ∧
        (dispatch W n h data i ts).ret = (deliver W n (i + pre.length) h data t).ret ∧
        (dispatch W n h data i ts).targets =
          pre.map (relay h data) ++ (deliver W n (i + pre.length) h data t).target :: post ∧
        (∀ e ∈ (dispatch W n h data i ts).events,
          ∃ j, Event.target e = some j ∧ j ≤ i + pre.length) := by
  intro ts
  induction ts with
  | nil => intro i hne; simp [dispatch] at hne
  | cons t ts ih =>
    intro i hne
    by_cases hm : t.type = 0 ∨ t.type = h.type
    · have ha : accepts t h = true := by simpa [accepts] using hm
      by_cases hd : (deliver W n i h data t).ret = 0
      · have hdis : dispatch W n h data i (t :: ts) =
            ⟨(dispatch W n h data (i + 1) ts).ret,
             (deliver W n i h data t).target :: (dispatch W n h data (i + 1) ts).targets,
             (deliver W n i h data t).events ++ (dispatch W n h data (i + 1) ts).events⟩ := by
          simp [dispatch, hm, hd]
        rw [hdis] at hne ⊢
        obtain ⟨pre, t1, post, e1, e2, e3, e4, e5⟩ := ih (i + 1) hne
        have hidx : i + (t :: pre).length = i + 1 + pre.length := by simp; omega
        refine ⟨t :: pre, t1, post, by simp [e1], e2, ?_, ?_, ?_⟩
        · rw [hidx]; exact e3
        · rw [hidx]
          simp only [List.map_cons, List.cons_append, e4]
          rw [(deliver_cases W n i h data t).1 hd]
          simp [relay, ha]
        · intro e he
          simp only [List.mem_append] at he
          rcases he with he | he
          · exact ⟨i, deliver_events W n i h data t e he, by omega⟩
          · rw [hidx]; exact e5 e he
      · refine ⟨[], t, ts, rfl, ha, ?_, ?_, ?_⟩
        · simp [dispatch, hm, hd]
        · simp [dispatch, hm, hd]
        · intro e he
          have hev : (dispatch W n h data i (t :: ts)).events =
              (deliver W n i h data t).events := by simp [dispatch, hm, hd]
          rw [hev] at he
          exact ⟨i, deliver_events W n i h data t e he, by simp⟩
    · have ha : accepts t h = false := by simpa [accepts] using hm
      have hdis : dispatch W n h data i (t :: ts) =
          ⟨(dispatch W n h data (i + 1) ts).ret,
           t :: (dispatch W n h data (i + 1) ts).targets,
           (dispatch W n h data (i + 1) ts).events⟩ := by
        simp [dispatch, hm]
      rw [hdis] at hne ⊢
      obtain ⟨pre, t1, post, e1, e2, e3, e4, e5⟩ := ih (i + 1) hne
      have hidx : i + (t :: pre).length = i + 1 + pre.length := by simp; omega
      refine ⟨t :: pre, t1, post, by simp [e1], e2, ?_, ?_, ?_⟩
      · rw [hidx]; exact e3
      · rw [hidx]
        simp only [List.map_cons, List.cons_append, e4]
        simp [relay, ha]
      · intro e he
        rw [hidx]; exact e5 e he

/-- C9 (amended): when, for a message whose source operations succeeded, the dispatch over the
registry fails, the registry splits at the first entry `t` whose delivery fails: `t` accepts the
message, every entry before `t` has received the message if its filter accepts it, `t` has
received nothing, every entry after `t` is untouched whether or not its filter accepts the
message and no call is made on its cursor, and the loop is left at once through `err` with the
code of the failed delivery: the calls of the iteration are the four source calls and the target
calls up to the failed one, with no close of the source read, and the cancel flag is not
tested. -/
theorem failed_delivery_stops_dispatch (W : World) (n : Nat) (s : SrcStep)
    (rest : List SrcStep) (st : State)
    (hs : s.ok) (hfail : (dispatch W n s.hdr s.payload 0 st.targets).ret ≠ 0) :
    (∃ pre t post, st.targets = pre ++ t :: post ∧ accepts t s.hdr = true ∧
      (deliver W n pre.length s.hdr s.payload t).ret ≠ 0 ∧
      (deliver W n pre.length s.hdr s.payload t).target.packet.committed =
        t.packet.committed ∧
      (copy_loop W n (s :: rest) st).1 =
        Exit.failed (deliver W n pre.length s.hdr s.payload t).ret ∧
      (copy_loop W n (s :: rest) st).2.targets =
        pre.map (relay s.hdr s.payload) ++
          (deliver W n pre.length s.hdr s.payload t).target :: post ∧
      (∀ e ∈ (dispatch W n s.hdr s.payload 0 st.targets).events,
        ∃ j, Event.target e = some j ∧ j ≤ pre.length)) ∧
    (copy_loop W n (s :: rest) st).2.trace =
      st.trace ++ ([Event.src_open 0, Event.src_read 0, Event.src_getsize 0, Event.src_dma 0] ++
        (dispatch W n s.hdr s.payload 0 st.targets).events) ∧
    (∀ c, Event.src_close c ∉
      [Event.src_open 0, Event.src_read 0, Event.src_getsize 0, Event.src_dma 0] ++
        (dispatch W n s.hdr s.payload 0 st.targets).events) ∧
    (copy_loop W n (s :: rest) st).2.tests = st.tests ∧
    (copy_loop W n (s :: rest) st).2.cancel = st.cancel := by
  obtain ⟨pre, t, post, e1, e2, e3, e4, e5⟩ :=
    dispatch_split W n s.hdr s.payload st.targets 0 hfail
  simp only [Nat.zero_add] at e3 e4 e5
  have hne : (deliver W n pre.length s.hdr s.payload t).ret ≠ 0 := by rw [← e3]; exact hfail
  have hloop := copy_loop_dispatch_fail W n s rest st hs hfail
  refine ⟨⟨pre, t, post, e1, e2, hne,
    ((deliver_cases W n pre.length s.hdr s.payload t).2 hne).1, ?_, ?_, e5⟩, ?_, ?_, ?_, ?_⟩
  · rw [hloop]; simp only [e3]
  · rw [hloop]; exact e4
  · rw [hloop]
  · intro c hc
    simp only [List.mem_append, List.mem_cons, List.mem_singleton, List.not_mem_nil,
      or_false] at hc
    rcases hc with (hc | hc | hc | hc) | hc
    · simp at hc
    · simp at hc
    · simp at hc
    · simp at hc
    · obtain ⟨j, hj, _⟩ := e5 _ hc
      simp [Event.target] at hj
  · rw [hloop]
  · rw [hloop]

/-- C9 (amended) at a run with two match-all targets where the open on the first one fails:
the only calls of the iteration are the four source calls and the failed open. -/
theorem failed_delivery_stops_dispatch_witness :
    ((msg 3 [7, 8]).ok ∧
      (dispatch open_fault_world 0 (msg 3 [7, 8]).hdr (msg 3 [7, 8]).payload 0
        (start_state open_fault_world two_all_copy).targets).ret ≠ 0) ∧
    (copy_loop open_fault_world 0 (msg 3 [7, 8] :: [msg 0 []])
        (start_state open_fault_world two_all_copy)).2.trace =
      [Event.packet_init 0, Event.src_open 0, Event.src_read 0, Event.src_getsize 0,
        Event.src_dma 0, Event.tgt_open 0 5] ∧
    (∀ c, Event.src_close c ∉
      [Event.src_open 0, Event.src_read 0, Event.src_getsize 0, Event.src_dma 0] ++
        (dispatch open_fault_world 0 (msg 3 [7, 8]).hdr (msg 3 [7, 8]).payload 0
          (start_state open_fault_world two_all_copy).targets).events) ∧
    (copy_loop open_fault_world 0 (msg 3 [7, 8] :: [msg 0 []])
        (start_state open_fault_world two_all_copy)).2.tests =
      (start_state open_fault_world two_all_copy).tests ∧
    ∃ pre t post, (start_state open_fault_world two_all_copy).targets = pre ++ t :: post ∧
      accepts t (msg 3 [7, 8]).hdr = true ∧
      (deliver open_fault_world 0 pre.length (msg 3 [7, 8]).hdr (msg 3 [7, 8]).payload t).ret ≠ 0 ∧
      (deliver open_fault_world 0 pre.length (msg 3 [7, 8]).hdr
          (msg 3 [7, 8]).payload t).target.packet.committed = t.packet.committed ∧
      (copy_loop open_fault_world 0 (msg 3 [7, 8] :: [msg 0 []])
          (start_state open_fault_world two_all_copy)).1 =
        Exit.failed (deliver open_fault_world 0 pre.length (msg 3 [7, 8]).hdr
          (msg 3 [7, 8]).payload t).ret ∧
      (copy_loop open_fault_world 0 (msg 3 [7, 8] :: [msg 0 []])
          (start_state open_fault_world two_all_copy)).2.targets =
        pre.map (relay (msg 3 [7, 8]).hdr (msg 3 [7, 8]).payload) ++
          (deliver open_fault_world 0 pre.length (msg 3 [7, 8]).hdr
            (msg 3 [7, 8]).payload t).target :: post ∧
      (∀ e ∈ (dispatch open_fault_world 0 (msg 3 [7, 8]).hdr (msg 3 [7, 8]).payload 0
          (start_state open_fault_world two_all_copy).targets).events,
        ∃ j, Event.target e = some j ∧ j ≤ pre.length) :=
  have h := failed_delivery_stops_dispatch open_fault_world 0 (msg 3 [7, 8]) [msg 0 []]
    (start_state open_fault_world two_all_copy) (by decide) (by decide)
  ⟨⟨by decide, by decide⟩, h.2.1.trans (by decide), h.2.2.1, h.2.2.2.1, h.1⟩

/-- C9 as stated fails: both targets are match-all; the open on the first one (buffer 20) fails
with code 5 while every operation on the second one (buffer 10) would succeed; the second one
receives nothing. -/
theorem failed_delivery_counterexample :
    two_all_copy.copy_target.map (fun t => (t.buffer, t.type)) = [(20, 0), (10, 0)] ∧
    open_fault_world.tgt_ret 0 0 TgtOp.op_open = 5 ∧
    (∀ op, open_fault_world.tgt_ret 0 1 op = 0) ∧
    (copy_thread open_fault_world two_all_copy).2.targets.map
        (fun t => (t.buffer, t.packet.committed)) = [(20, []), (10, [])] := by
  refine ⟨by decide, by decide, fun op => by cases op <;> rfl, by decide⟩

/-! ## Cursors -/

theorem filter_opened_closed (ts : List copy_target_s)
    (h : ∀ t ∈ ts, t.packet.opened = false) :
    ts.filter (fun t => t.packet.opened) = [] := by
  rw [List.filter_eq_nil_iff]
  intro t ht
  simp [h t ht]

/-- A dispatch over closed cursors hands only complete messages to the buffers, leaves every
cursor closed when it succeeds and at most one cursor open when it fails. -/
theorem dispatch_cursors (W : World) (n : Nat) (h : glc_message_header_t) (data : List Nat)
    (G : List Chunk → Prop) (hG : G [Chunk.header h, Chunk.bytes data]) :
    ∀ (ts : List copy_target_s) (i : Nat),
      (∀ t ∈ ts, t.packet.opened = false ∧ ∀ p ∈ t.packet.committed, G p) →
      (∀ t ∈ (dispatch W n h data i ts).targets, ∀ p ∈ t.packet.committed, G p) ∧
      ((dispatch W n h data i ts).ret = 0 →
        ∀ t ∈ (dispatch W n h data i ts).targets, t.packet.opened = false) ∧
      ((dispatch W n h data i ts).targets.filter (fun t => t.packet.opened)).length ≤ 1 := by
  intro ts
  induction ts with
  | nil => intro i _; simp [dispatch]
  | cons t ts ih =>
    intro i hts
    have ht := hts t (List.mem_cons_self _ _)
    have hrest : ∀ x ∈ ts, x.packet.opened = false ∧ ∀ p ∈ x.packet.committed, G p :=
      fun x hx => hts x (List.mem_cons_of_mem _ hx)
    obtain ⟨r1, r2, r3⟩ := ih (i + 1) hrest
    obtain ⟨c1, c2⟩ := deliver_cases W n i h data t
    by_cases hm : t.type = 0 ∨ t.type = h.type
    · by_cases hd : (deliver W n i h data t).ret = 0
      · have hdis : dispatch W n h data i (t :: ts) =
            ⟨(dispatch W n h data (i + 1) ts).ret,
             (deliver W n i h data t).target :: (dispatch W n h data (i + 1) ts).targets,
             (deliver W n i h data t).events ++ (dispatch W n h data (i + 1) ts).events⟩ := by
          simp [dispatch, hm, hd]
        rw [hdis]
        have hclosed : (deliver W n i h data t).target.packet.opened = false := by
          rw [c1 hd]
        refine ⟨?_, ?_, ?_⟩
        · intro x hx p hp
          simp only [List.mem_cons] at hx
          rcases hx with rfl | hx
          · rw [c1 hd] at hp
            simp only [List.mem_append, List.mem_singleton] at hp
            rcases hp with hp | rfl
            · exact ht.2 p hp
            · exact hG
          · exact r1 x hx p hp
        · intro hz x hx
          simp only [List.mem_cons] at hx
          rcases hx with rfl | hx
          · exact hclosed
          · exact r2 hz x hx
        · simp only [List.filter_cons, hclosed]
          exact r3
      · have hdis : dispatch W n h data i (t :: ts) =
            ⟨(deliver W n i h data t).ret, (deliver W n i h data t).target :: ts,
             (deliver W n i h data t).events⟩ := by
          simp [dispatch, hm, hd]
        rw [hdis]
        refine ⟨?_, fun hz => absurd hz hd, ?_⟩
        · intro x hx p hp
          simp only [List.mem_cons] at hx
          rcases hx with rfl | hx
          · rw [(c2 hd).1] at hp
            exact ht.2 p hp
          · exact (hrest x hx).2 p hp
        · simp only [List.filter_cons, filter_opened_closed ts (fun x hx => (hrest x hx).1)]
          split_ifs <;> simp
    · have hdis : dispatch W n h data i (t :: ts) =
          ⟨(dispatch W n h data (i + 1) ts).ret,
           t :: (dispatch W n h data (i + 1) ts).targets,
           (dispatch W n h data (i + 1) ts).events⟩ := by
        simp [dispatch, hm]
      rw [hdis]
      refine ⟨?_, ?_, ?_⟩
      · intro x hx p hp
        simp only [List.mem_cons] at hx
        rcases hx with rfl | hx
        · exact ht.2 p hp
        · exact r1 x hx p hp
      · intro hz x hx
        simp only [List.mem_cons] at hx
        rcases hx with rfl | hx
        · exact ht.1
        · exact r2 hz x hx
      · simp only [List.filter_cons, ht.1]
        exact r3

/-- The loop, started on closed cursors, hands only complete source messages to the buffers,
leaves every cursor closed unless it is left through `err`, and then leaves at most one open. -/
theorem copy_loop_cursors (W : World) (G : List Chunk → Prop) :
    ∀ (src : List SrcStep) (n : Nat) (st : State),
      (∀ s ∈ src, G (framed s)) →
      (∀ t ∈ st.targets, t.packet.opened = false ∧ ∀ p ∈ t.packet.committed, G p) →
      (∀ t ∈ (copy_loop W n src st).2.targets, ∀ p ∈ t.packet.committed, G p) ∧
      ((∀ r, (copy_loop W n src st).1 ≠ Exit.failed r) →
        ∀ t ∈ (copy_loop W n src st).2.targets, t.packet.opened = false) ∧
      ((copy_loop W n src st).2.targets.filter (fun t => t.packet.opened)).length ≤ 1 := by
  intro src
  induction src with
  | nil =>
    intro n st _ hst
    refine ⟨fun t ht => (hst t ht).2, fun _ t ht => (hst t ht).1, ?_⟩
    simp only [copy_loop]
    rw [filter_opened_closed st.targets (fun t ht => (hst t ht).1)]
    simp
  | cons s rest ih =>
    intro n st hsrc hst
    cases hf : s.fault with
    | some r =>
      obtain ⟨body, op, _, _, _, b4⟩ := copy_loop_fault W n s rest st r hf
      rw [b4]
      refine ⟨fun t ht => (hst t ht).2, fun _ t ht => (hst t ht).1, ?_⟩
      simp only []
      rw [filter_opened_closed st.targets (fun t ht => (hst t ht).1)]
      simp
    | none =>
      have hs := fault_none_ok s hf
      obtain ⟨d1, d2, d3⟩ := dispatch_cursors W n s.hdr s.payload G
        (hsrc s (List.mem_cons_self _ _)) st.targets 0 hst
      by_cases hd : (dispatch W n s.hdr s.payload 0 st.targets).ret = 0
      · rw [copy_loop_step W n s rest st hs hd]
        split_ifs
        · exact ih (n + 1) _ (fun x hx => hsrc x (List.mem_cons_of_mem _ hx))
            (fun t ht => ⟨d2 hd t ht, d1 t ht⟩)
        · exact ⟨d1, fun _ => d2 hd, d3⟩
      · rw [copy_loop_dispatch_fail W n s rest st hs hd]
        exact ⟨d1, fun hne => absurd rfl (hne _), d3⟩

/-- C8 (amended): a delivery either returns 0, having handed the complete message (header, then
payload) to the buffer and closed the cursor, or returns the code of its first failing
operation, having handed nothing to the buffer and left the cursor as that operation found it:
untouched if the open failed, otherwise open and holding nothing, the header only, or the header
and the payload.  In a run on a registry of fresh cursors every packet a buffer receives is a
complete source message; every cursor is closed at the end unless the loop was left through
`err`, and then at most one cursor is open; the failure is logged exactly when its code is not
`EINTR`. -/
theorem delivery_complete_or_abandoned (W : World) (copy : copy_s)
    (hfresh : ∀ t ∈ copy.copy_target, t.packet = ps_packet_init) :
    (∀ n i h data t,
      ((deliver W n i h data t).ret = 0 →
        (deliver W n i h data t).target.packet =
          { opened := false, pending := [],
            committed := t.packet.committed ++ [[Chunk.header h, Chunk.bytes data]] }) ∧
      ((deliver W n i h data t).ret ≠ 0 →
        (deliver W n i h data t).target.packet.committed = t.packet.committed ∧
        (W.tgt_ret n i TgtOp.op_open ≠ 0 → (deliver W n i h data t).target.packet = t.packet) ∧
        (W.tgt_ret n i TgtOp.op_open = 0 →
          (deliver W n i h data t).target.packet.opened = true ∧
          ((deliver W n i h data t).target.packet.pending = [] ∨
           (deliver W n i h data t).target.packet.pending = [Chunk.header h] ∨
           (deliver W n i h data t).target.packet.pending =
             [Chunk.header h, Chunk.bytes data])))) ∧
    (∀ t ∈ (copy_thread W copy).2.targets, ∀ p ∈ t.packet.committed,
      ∃ s ∈ W.source, p = framed s) ∧
    ((∀ r, (copy_thread W copy).1 ≠ Exit.failed r) →
      ∀ t ∈ (copy_thread W copy).2.targets, t.packet.opened = false) ∧
    ((copy_thread W copy).2.targets.filter (fun t => t.packet.opened)).length ≤ 1 ∧
    (∀ r, (copy_thread W copy).1 = Exit.failed r →
      (Event.log r ∈ (copy_thread W copy).2.trace ↔ r ≠ EINTR)) := by
  have hstart : ∀ t ∈ (start_state W copy).targets,
      t.packet.opened = false ∧ ∀ p ∈ t.packet.committed, ∃ s ∈ W.source, p = framed s := by
    intro t ht
    have := hfresh t ht
    rw [this]
    simp [ps_packet_init]
  refine ⟨?_, ?_, ?_, ?_, ?_⟩
  · intro n i h data t
    obtain ⟨c1, c2⟩ := deliver_cases W n i h data t
    exact ⟨fun hz => by rw [c1 hz], c2⟩
  · by_cases hi : W.init_ret = 0
    · rw [copy_thread_targets W copy hi]
      exact (copy_loop_cursors W (fun p => ∃ s ∈ W.source, p = framed s) W.source 0
        (start_state W copy) (fun s hs => ⟨s, hs, rfl⟩) hstart).1
    · have hct : (copy_thread W copy).2.targets = (start_state W copy).targets := by
        simp [copy_thread, hi, finish_targets, err_targets]
      rw [hct]
      exact fun t ht => (hstart t ht).2
  · intro hne
    by_cases hi : W.init_ret = 0
    · rw [copy_thread_targets W copy hi]
      rw [copy_thread_exit W copy hi] at hne
      exact (copy_loop_cursors W (fun p => ∃ s ∈ W.source, p = framed s) W.source 0
        (start_state W copy) (fun s hs => ⟨s, hs, rfl⟩) hstart).2.1 hne
    · have hct : (copy_thread W copy).2.targets = (start_state W copy).targets := by
        simp [copy_thread, hi, finish_targets, err_targets]
      rw [hct]
      exact fun t ht => (hstart t ht).1
  · by_cases hi : W.init_ret = 0
    · rw [copy_thread_targets W copy hi]
      exact (copy_loop_cursors W (fun p => ∃ s ∈ W.source, p = framed s) W.source 0
        (start_state W copy) (fun s hs => ⟨s, hs, rfl⟩) hstart).2.2
    · have hct : (copy_thread W copy).2.targets = (start_state W copy).targets := by
        simp [copy_thread, hi, finish_targets, err_targets]
      rw [hct, filter_opened_closed _ (fun t ht => (hstart t ht).1)]
      simp
  · intro r hx
    have hrep := (copy_thread_reports W copy).1 r hx
    have hmem : Event.log r ∈ (copy_thread W copy).2.trace ↔ Event.log r ∈ reports r := by
      rw [← hrep, List.mem_filter]
      simp [Event.is_report]
    rw [hmem]
    unfold reports
    split_ifs with hE
    · simp [hE]
    · simp [hE]

/-- C8 (amended) at a run where the payload write on a target fails with code 5 after the header
write succeeded. -/
theorem delivery_complete_or_abandoned_witness :
    (∀ t ∈ scenario_copy.copy_target, t.packet = ps_packet_init) ∧
    (((copy_thread (payload_fault_world 5) scenario_copy).2.targets.filter
        (fun t => t.packet.opened)).length ≤ 1) ∧
    (Event.log 5 ∈ (copy_thread (payload_fault_world 5) scenario_copy).2.trace ↔ 5 ≠ EINTR) :=
  have h := delivery_complete_or_abandoned (payload_fault_world 5) scenario_copy (by decide)
  ⟨by decide, h.2.2.2.1, h.2.2.2.2 5 (by decide)⟩

/-- C8 as stated fails: the header write on the match-all target (buffer 10) succeeds and the
payload write fails; the worker exits with that cursor open and holding the header only.  With
code 5 the failure is logged; with code `EINTR` it is not even logged. -/
theorem half_written_counterexample :
    ((payload_fault_world 5).tgt_ret 0 1 TgtOp.op_write_hdr = 0 ∧
      (payload_fault_world 5).tgt_ret 0 1 TgtOp.op_write_data = 5) ∧
    (copy_thread (payload_fault_world 5) scenario_copy).2.targets.map
        (fun t => (t.buffer, t.packet.opened, t.packet.pending)) =
      [(20, false, []), (10, true, [Chunk.header ⟨3⟩])] ∧
    (copy_thread (payload_fault_world EINTR) scenario_copy).2.targets.map
        (fun t => (t.buffer, t.packet.opened, t.packet.pending)) =
      [(20, false, []), (10, true, [Chunk.header ⟨3⟩])] ∧
    (copy_thread (payload_fault_world EINTR) scenario_copy).2.trace.filter Event.is_report = [] := by
  decide

/-! ## The cancel flag and the loop -/

theorem dispatch_world (W : World) (X : List SrcStep) (n : Nat) (h : glc_message_header_t)
    (data : List Nat) :
    ∀ (ts : List copy_target_s) (i : Nat),
      dispatch { W with source := X } n h data i ts = dispatch W n h data i ts := by
  intro ts
  induction ts with
  | nil => intro i; rfl
  | cons t ts ih =>
    intro i
    have hd : deliver { W with source := X } n i h data t = deliver W n i h data t := rfl
    simp only [dispatch, hd, ih (i + 1)]

/-- The loop reads the source only through the list it is given. -/
theorem copy_loop_world (W : World) (X : List SrcStep) :
    ∀ (src : List SrcStep) (n : Nat) (st : State),
      copy_loop { W with source := X } n src st = copy_loop W n src st := by
  intro src
  induction src with
  | nil => intro n st; rfl
  | cons s rest ih =>
    intro n st
    have hg : ∀ x, glc_state_test { W with source := X } x = glc_state_test W x := fun _ => rfl
    simp only [copy_loop, dispatch_world, hg, ih]

theorem copy_thread_world (W : World) (X : List SrcStep) (copy : copy_s) :
    copy_thread { W with source := X } copy =
      (if W.init_ret ≠ 0 then
        (Exit.failed W.init_ret, finish W copy (err W.init_ret (start_state W copy)))
      else
        match copy_loop W 0 X (start_state W copy) with
        | (Exit.blocked, st) => (Exit.blocked, st)
        | (Exit.finished, st) => (Exit.finished, finish W copy st)
        | (Exit.failed ret, st) => (Exit.failed ret, finish W copy (err ret st))) := by
  have hf : ∀ x, finish { W with source := X } copy x = finish W copy x := fun _ => rfl
  have hs : start_state { W with source := X } copy = start_state W copy := rfl
  simp only [copy_thread, copy_loop_world, hf, hs]

/-- What the loop does after an iteration matters only if the flag is clear when tested. -/
theorem copy_loop_congr (W : World) (n : Nat) (s : SrcStep) (X Y : List SrcStep) (st : State)
    (h : (st.cancel || W.ext_cancel st.tests) = false →
      ∀ st1 : State, st1.cancel = false → st1.tests = st.tests + 1 →
        copy_loop W (n + 1) X st1 = copy_loop W (n + 1) Y st1) :
    copy_loop W n (s :: X) st = copy_loop W n (s :: Y) st := by
  simp only [copy_loop]
  split_ifs with h1 h2 h3 h4 h5 h6
  all_goals first
    | rfl
    | (simp only [Bool.and_eq_true, Bool.not_eq_true', glc_state_test, State.emit] at h6
       exact h h6.1 _ h6.1 rfl)

/-- Once the flag is set by the test that ends iteration `k` (counted from the current one), the
loop reads nothing beyond the first `k + 1` source entries, and it does not stay blocked if
there are that many. -/
theorem copy_loop_cut (W : World) :
    ∀ (k : Nat) (src : List SrcStep) (n : Nat) (st : State),
      (st.cancel = true ∨ ∃ j, st.tests ≤ j ∧ j ≤ st.tests + k ∧ W.ext_cancel j = true) →
      copy_loop W n src st = copy_loop W n (src.take (k + 1)) st ∧
      (k + 1 ≤ src.length → (copy_loop W n src st).1 ≠ Exit.blocked) := by
  intro k
  induction k with
  | zero =>
    intro src n st hset
    have hflag : (st.cancel || W.ext_cancel st.tests) = true := by
      rcases hset with hc | ⟨j, h1, h2, h3⟩
      · simp [hc]
      · have : j = st.tests := by omega
        subst this
        simp [h3]
    cases src with
    | nil => exact ⟨rfl, fun hl => by simp at hl⟩
    | cons s rest =>
      refine ⟨?_, fun _ => ?_⟩
      · simp only [Nat.zero_add, List.take_succ_cons, List.take_zero]
        exact copy_loop_congr W n s rest [] st (fun hf => by rw [hflag] at hf; simp at hf)
      · cases hf : s.fault with
        | some r =>
          obtain ⟨body, op, _, _, _, b4⟩ := copy_loop_fault W n s rest st r hf
          rw [b4]; simp
        | none =>
          have hs := fault_none_ok s hf
          by_cases hd : (dispatch W n s.hdr s.payload 0 st.targets).ret = 0
          · rw [copy_loop_step W n s rest st hs hd]
            rw [if_neg (by simp [hflag])]
            simp
          · rw [copy_loop_dispatch_fail W n s rest st hs hd]; simp
  | succ k ih =>
    intro src n st hset
    cases src with
    | nil => exact ⟨rfl, fun hl => by simp at hl⟩
    | cons s rest =>
      have hnext : (st.cancel || W.ext_cancel st.tests) = false →
          ∀ st1 : State, st1.cancel = false → st1.tests = st.tests + 1 →
            (st1.cancel = true ∨
              ∃ j, st1.tests ≤ j ∧ j ≤ st1.tests + k ∧ W.ext_cancel j = true) := by
        intro hf st1 _ ht
        simp only [Bool.or_eq_false_iff] at hf
        rcases hset with hc | ⟨j, h1, h2, h3⟩
        · rw [hf.1] at hc; simp at hc
        · have hj : j ≠ st.tests := by
            intro hj; rw [hj, hf.2] at h3; simp at h3
          exact Or.inr ⟨j, by omega, by omega, h3⟩
      refine ⟨?_, fun hl => ?_⟩
      · simp only [List.take_succ_cons]
        exact copy_loop_congr W n s rest (rest.take (k + 1)) st
          (fun hf st1 hc ht => (ih rest (n + 1) st1 (hnext hf st1 hc ht)).1)
      · have hl2 : k + 1 ≤ rest.length := by simp at hl; omega
        cases hf : s.fault with
        | some r =>
          obtain ⟨body, op, _, _, _, b4⟩ := copy_loop_fault W n s rest st r hf
          rw [b4]; simp
        | none =>
          have hs := fault_none_ok s hf
          by_cases hd : (dispatch W n s.hdr s.payload 0 st.targets).ret = 0
          · rw [copy_loop_step W n s rest st hs hd]
            split_ifs with hc
            · exact (ih rest (n + 1) _ (hnext hc.1 _ hc.1 rfl)).2 hl2
            · simp
          · rw [copy_loop_dispatch_fail W n s rest st hs hd]; simp

theorem fault_src_open (W : World) (n : Nat) (s : SrcStep) (rest : List SrcStep) (st : State)
    (r : Nat) (h : s.fault = some r) :
    (copy_loop W n (s :: rest) st).2.trace.countP Event.is_src_open =
      st.trace.countP Event.is_src_open + 1 := by
  unfold SrcStep.fault at h
  split_ifs at h with h1 h2 h3 h4
  · simp [copy_loop, h1, State.emit, List.countP_append, List.countP_cons, Event.is_src_open]
  · simp only [ne_eq, not_not] at h1
    simp [copy_loop, h1, h2, State.emit, List.countP_append, List.countP_cons, Event.is_src_open]
  · simp only [ne_eq, not_not] at h1 h2
    simp [copy_loop, h1, h2, h3, State.emit, List.countP_append, List.countP_cons,
      Event.is_src_open]
  · simp only [ne_eq, not_not] at h1 h2 h3
    simp [copy_loop, h1, h2, h3, h4, State.emit, List.countP_append, List.countP_cons,
      Event.is_src_open]

/-- The loop opens the source at most once per source entry. -/
theorem copy_loop_src_open_le (W : World) :
    ∀ (src : List SrcStep) (n : Nat) (st : State),
      (copy_loop W n src st).2.trace.countP Event.is_src_open ≤
        st.trace.countP Event.is_src_open + src.length := by
  intro src
  induction src with
  | nil => intro n st; simp [copy_loop]
  | cons s rest ih =>
    intro n st
    cases hf : s.fault with
    | some r =>
      rw [fault_src_open W n s rest st r hf]
      simp
    | none =>
      have hs := fault_none_ok s hf
      have hcnt := dispatch_events_src_open W n s.hdr s.payload st.targets 0
      by_cases hd : (dispatch W n s.hdr s.payload 0 st.targets).ret = 0
      · rw [copy_loop_step W n s rest st hs hd]
        split_ifs
        · refine le_trans (ih (n + 1) _) ?_
          simp [List.countP_append, List.countP_cons, Event.is_src_open, hcnt]
          omega
        · simp [List.countP_append, List.countP_cons, Event.is_src_open, hcnt]
      · rw [copy_loop_dispatch_fail W n s rest st hs hd]
        simp [List.countP_append, List.countP_cons, Event.is_src_open, hcnt]

theorem copy_loop_extends (W : World) (src : List SrcStep) (n : Nat) (st : State) :
    ∃ ext, (copy_loop W n src st).2.trace = st.trace ++ ext := by
  obtain ⟨body, _, b2, b3⟩ := copy_loop_trace W src n st
  cases hx : (copy_loop W n src st).1 with
  | blocked => exact ⟨body, b2 (by rw [hx]; simp)⟩
  | finished => exact ⟨body, b2 (by rw [hx]; simp)⟩
  | failed r =>
    obtain ⟨_, op, _, c3⟩ := b3 r hx
    exact ⟨body ++ [op], by rw [c3, List.append_assoc]⟩

/-- Whatever the flag, an iteration starts by opening the source read. -/
theorem copy_loop_first_open (W : World) (n : Nat) (s : SrcStep) (rest : List SrcStep)
    (st : State) :
    ∃ ext, (copy_loop W n (s :: rest) st).2.trace =
      st.trace ++ Event.src_open s.open_ret :: ext := by
  cases hf : s.fault with
  | some r =>
    unfold SrcStep.fault at hf
    split_ifs at hf with h1 h2 h3 h4
    · exact ⟨[], by simp [copy_loop, h1, State.emit]⟩
    · simp only [ne_eq, not_not] at h1
      exact ⟨[Event.src_read s.read_ret], by simp [copy_loop, h1, h2, State.emit]⟩
    · simp only [ne_eq, not_not] at h1 h2
      exact ⟨[Event.src_read 0, Event.src_getsize s.getsize_ret],
        by simp [copy_loop, h1, h2, h3, State.emit]⟩
    · simp only [ne_eq, not_not] at h1 h2 h3
      exact ⟨[Event.src_read 0, Event.src_getsize 0, Event.src_dma s.dma_ret],
        by simp [copy_loop, h1, h2, h3, h4, State.emit]⟩
  | none =>
    have hs := fault_none_ok s hf
    have h1 : s.open_ret = 0 := hs.1
    by_cases hd : (dispatch W n s.hdr s.payload 0 st.targets).ret = 0
    · rw [copy_loop_step W n s rest st hs hd]
      split_ifs
      · obtain ⟨ext, he⟩ := copy_loop_extends W rest (n + 1)
          { cancel := st.cancel || W.ext_cancel st.tests, tests := st.tests + 1,
            trace := st.trace ++ ([Event.src_open 0, Event.src_read 0, Event.src_getsize 0,
              Event.src_dma 0] ++ (dispatch W n s.hdr s.payload 0 st.targets).events ++
              [Event.src_close s.close_ret]),
            targets := (dispatch W n s.hdr s.payload 0 st.targets).targets }
        rw [he, h1]
        exact ⟨_, by simp only [List.append_assoc, List.cons_append]; rfl⟩
      · rw [h1]
        exact ⟨_, by simp only [List.append_assoc, List.cons_append]; rfl⟩
    · rw [copy_loop_dispatch_fail W n s rest st hs hd, h1]
      exact ⟨_, by simp only [List.cons_append]; rfl⟩

/-- Whatever the flag, an iteration whose calls succeed is carried out in full: source open, read,
getsize and dma, the calls of the dispatch, and the source close. -/
theorem copy_loop_first_full (W : World) (n : Nat) (s : SrcStep) (rest : List SrcStep)
    (st : State) (hs : s.ok) (hd : (dispatch W n s.hdr s.payload 0 st.targets).ret = 0) :
    ∃ ext, (copy_loop W n (s :: rest) st).2.trace =
      st.trace ++ ([Event.src_open 0, Event.src_read 0, Event.src_getsize 0, Event.src_dma 0] ++
        (dispatch W n s.hdr s.payload 0 st.targets).events ++
        [Event.src_close s.close_ret]) ++ ext := by
  rw [copy_loop_step W n s rest st hs hd]
  split_ifs
  · exact copy_loop_extends W rest (n + 1) _
  · exact ⟨[], by simp⟩

theorem copy_thread_extends (W : World) (copy : copy_s) (hi : W.init_ret = 0) :
    ∃ ext, (copy_thread W copy).2.trace =
      (copy_loop W 0 W.source (start_state W copy)).2.trace ++ ext := by
  have hfin : ∀ st : State, ∃ ext, (finish W copy st).trace = st.trace ++ ext := by
    intro st
    unfold finish
    simp only [glc_state_test, State.emit]
    split_ifs
    · exact ⟨_, by simp only [List.append_assoc]; rfl⟩
    · exact ⟨_, rfl⟩
  cases hc : copy_loop W 0 W.source (start_state W copy) with
  | mk e st =>
    cases e with
    | blocked => exact ⟨[], by simp [copy_thread, hi, hc]⟩
    | finished =>
      obtain ⟨ext, he⟩ := hfin st
      exact ⟨ext, by simp [copy_thread, hi, hc, he]⟩
    | failed r0 =>
      obtain ⟨ext, he⟩ := hfin (err r0 st)
      refine ⟨reports r0 ++ ext, ?_⟩
      simp only [copy_thread, hi, hc, ne_eq, not_true_eq_false, if_false, he]
      rw [err_eq]
      simp

/-- C10 (amended): the cancel flag is tested at the end of an iteration, never before the first
one.  (1) If the flag is set when the worker starts, or is set from outside by the time of the
test that ends iteration `k` (counted from 0), the run is the run the worker would make on the
first `k + 1` source entries alone: after that test it opens no source read and writes to no
target, so it opens the source at most `k + 1` times, and if the source holds that many entries
the worker is not left blocked but goes on to `finish`.  (2) Whatever the flag, even set before
the worker starts, the first iteration is executed: once `ps_packet_init` has succeeded the
worker opens the source read for the first source entry, and if the calls of that iteration
succeed it makes all of them: source open, read, getsize, dma, the target writes of the
dispatch, and the source close.  (3) With the flag set before the worker starts and a first
iteration whose calls succeed, the run is exactly that one iteration followed by `finish`: the
destroy, the cancel of the source buffer and the cancel of the buffer of every registry
entry. -/
theorem cancel_tested_after_iteration (W : World) (copy : copy_s) :
    (∀ k, (W.cancel0 = true ∨ ∃ j, j ≤ k ∧ W.ext_cancel j = true) →
      copy_thread W copy = copy_thread { W with source := W.source.take (k + 1) } copy ∧
      (copy_thread W copy).2.trace.countP Event.is_src_open ≤ k + 1 ∧
      (k + 1 ≤ W.source.length → (copy_thread W copy).1 ≠ Exit.blocked)) ∧
    (∀ (s : SrcStep) (rest : List SrcStep), W.init_ret = 0 → W.source = s :: rest →
      (∃ tail, (copy_thread W copy).2.trace =
        Event.packet_init 0 :: Event.src_open s.open_ret :: tail) ∧
      1 ≤ (copy_thread W copy).2.trace.countP Event.is_src_open ∧
      (s.ok → (dispatch W 0 s.hdr s.payload 0 copy.copy_target).ret = 0 →
        ∃ tail, (copy_thread W copy).2.trace =
          Event.packet_init 0 :: ([Event.src_open 0, Event.src_read 0, Event.src_getsize 0,
            Event.src_dma 0] ++ (dispatch W 0 s.hdr s.payload 0 copy.copy_target).events ++
            [Event.src_close s.close_ret]) ++ tail)) ∧
    (∀ (s : SrcStep) (rest : List SrcStep), W.init_ret = 0 → W.source = s :: rest →
      W.cancel0 = true →
      s.ok → (dispatch W 0 s.hdr s.payload 0 copy.copy_target).ret = 0 →
      copy_thread W copy =
        (Exit.finished,
          { cancel := true, tests := 2,
            trace := Event.packet_init 0 :: ([Event.src_open 0, Event.src_read 0,
              Event.src_getsize 0, Event.src_dma 0] ++
              (dispatch W 0 s.hdr s.payload 0 copy.copy_target).events ++
              [Event.src_close s.close_ret, Event.packet_destroy]) ++ cleanup_calls copy true,
            targets := (dispatch W 0 s.hdr s.payload 0 copy.copy_target).targets })) := by
  refine ⟨?_, ?_, ?_⟩
  · intro k hset
    have hset2 : (start_state W copy).cancel = true ∨
        ∃ j, (start_state W copy).tests ≤ j ∧ j ≤ (start_state W copy).tests + k ∧
          W.ext_cancel j = true := by
      rcases hset with hc | ⟨j, h1, h2⟩
      · exact Or.inl hc
      · exact Or.inr ⟨j, by simp [start_state], by simp [start_state]; exact h1, h2⟩
    obtain ⟨c1, c2⟩ := copy_loop_cut W k W.source 0 (start_state W copy) hset2
    refine ⟨?_, ?_, ?_⟩
    · rw [copy_thread_world W (W.source.take (k + 1)) copy, ← c1]
      rfl
    · by_cases hi : W.init_ret = 0
      · rw [copy_thread_src_open W copy hi, c1]
        refine le_trans (copy_loop_src_open_le W _ 0 _) ?_
        simp [start_state, Event.is_src_open, List.length_take]
      · have : (copy_thread W copy).2.trace.countP Event.is_src_open = 0 := by
          simp [copy_thread, hi, finish_src_open, err_src_open, start_state, Event.is_src_open]
        omega
    · intro hl
      by_cases hi : W.init_ret = 0
      · rw [copy_thread_exit W copy hi]
        exact c2 hl
      · simp [copy_thread, hi]
  · intro s rest hi hsrc
    obtain ⟨ext, he⟩ := copy_thread_extends W copy hi
    rw [hsrc] at he
    have hst : (start_state W copy).trace = [Event.packet_init 0] := by simp [start_state, hi]
    obtain ⟨e1, h1⟩ := copy_loop_first_open W 0 s rest (start_state W copy)
    have htr : (copy_thread W copy).2.trace =
        Event.packet_init 0 :: Event.src_open s.open_ret :: (e1 ++ ext) := by
      rw [he, h1, hst]; simp
    refine ⟨⟨_, htr⟩, ?_, ?_⟩
    · rw [htr]
      simp [List.countP_cons, Event.is_src_open]
    · intro hs hd
      obtain ⟨e2, h2⟩ := copy_loop_first_full W 0 s rest (start_state W copy) hs hd
      refine ⟨e2 ++ ext, ?_⟩
      rw [he, h2, hst]
      simp [start_state]
  · intro s rest hi hsrc hc hs hd
    have hd2 : (dispatch W 0 s.hdr s.payload 0 (start_state W copy).targets).ret = 0 := hd
    have hloop := copy_loop_step W 0 s rest (start_state W copy) hs hd2
    have hcond : ¬ (((start_state W copy).cancel || W.ext_cancel (start_state W copy).tests) =
        false ∧ s.hdr.type ≠ W.GLC_MESSAGE_CLOSE) := by
      simp [start_state, hc]
    rw [if_neg hcond] at hloop
    have hb := dispatch_buffers W 0 s.hdr s.payload copy.copy_target 0
    unfold copy_thread
    simp only [hi, ne_eq, not_true_eq_false, if_false, hsrc, hloop]
    rw [finish_eq W copy _ hb]
    simp [start_state, hc, hi]

/-- C10 (amended) at the scenario of the specification with the flag set before the worker
starts: the worker still opens the source, reads the first message and writes it to the
match-all target, and only then leaves the loop and cancels the buffers. -/
theorem cancel_tested_after_iteration_witness :
    (cancelled_world.cancel0 = true ∧ cancelled_world.init_ret = 0 ∧
      cancelled_world.source = msg 3 [7, 8] :: [msg 5 [9], msg 0 [], msg 3 [1]] ∧
      (msg 3 [7, 8]).ok ∧
      (dispatch cancelled_world 0 (msg 3 [7, 8]).hdr (msg 3 [7, 8]).payload 0
        scenario_copy.copy_target).ret = 0) ∧
    (copy_thread cancelled_world scenario_copy =
        copy_thread { cancelled_world with source := cancelled_world.source.take (0 + 1) }
          scenario_copy ∧
      (copy_thread cancelled_world scenario_copy).2.trace.countP Event.is_src_open ≤ 0 + 1 ∧
      (0 + 1 ≤ cancelled_world.source.length →
        (copy_thread cancelled_world scenario_copy).1 ≠ Exit.blocked)) ∧
    1 ≤ (copy_thread cancelled_world scenario_copy).2.trace.countP Event.is_src_open ∧
    copy_thread cancelled_world scenario_copy =
      (Exit.finished,
        { cancel := true, tests := 2,
          trace := [Event.packet_init 0, Event.src_open 0, Event.src_read 0,
            Event.src_getsize 0, Event.src_dma 0, Event.tgt_open 1 0, Event.tgt_write_hdr 1 0,
            Event.tgt_write_data 1 0, Event.tgt_close 1 0, Event.src_close 0,
            Event.packet_destroy, Event.buffer_cancel 1, Event.buffer_cancel 20,
            Event.buffer_cancel 10],
          targets :=
            [{ buffer := 20, packet := ps_packet_init, type := 5 },
             { buffer := 10,
               packet := { opened := false, pending := [],
                           committed := [[Chunk.header ⟨3⟩, Chunk.bytes [7, 8]]] },
               type := 0 }] }) :=
  have h := cancel_tested_after_iteration cancelled_world scenario_copy
  ⟨⟨rfl, rfl, rfl, by decide, by decide⟩,
   h.1 0 (Or.inl rfl),
   (h.2.1 (msg 3 [7, 8]) [msg 5 [9], msg 0 [], msg 3 [1]] rfl rfl).2.1,
   (h.2.2 (msg 3 [7, 8]) [msg 5 [9], msg 0 [], msg 3 [1]] rfl rfl rfl (by decide)
      (by decide)).trans (by decide)⟩

/-- C10 as stated fails at the first iteration: with the flag set before the worker starts, the
worker still opens a source read and writes the first message to the match-all target
(buffer 10), and only then leaves the loop. -/
theorem cancel_before_start_counterexample :
    cancelled_world.cancel0 = true ∧
    (copy_thread cancelled_world scenario_copy).2.trace.countP Event.is_src_open = 1 ∧
    Event.tgt_write_data 1 0 ∈ (copy_thread cancelled_world scenario_copy).2.trace ∧
    (copy_thread cancelled_world scenario_copy).2.targets.map
        (fun t => (t.buffer, t.packet.committed)) =
      [(20, []), (10, [[Chunk.header ⟨3⟩, Chunk.bytes [7, 8]]])] := by
  decide

/-! ## The result of the source close -/

theorem dispatch_events_forget (W : World) (n : Nat) (h : glc_message_header_t)
    (data : List Nat) (ts : List copy_target_s) (i : Nat) :
    (dispatch W n h data i ts).events.map Event.forget_close =
      (dispatch W n h data i ts).events := by
  have hid : ∀ e ∈ (dispatch W n h data i ts).events, Event.forget_close e = id e := by
    intro e he
    have := dispatch_events W n h data ts i e he
    cases e <;> simp [Event.target, Event.forget_close] at this ⊢
  rw [List.map_congr_left hid, List.map_id]

/-- The loop does not look at the result of the source close: replacing every such result by 0
changes nothing but the result recorded with the close calls. -/
theorem copy_loop_close_free (W : World) :
    ∀ (src : List SrcStep) (n : Nat) (st : State),
      copy_loop W n (src.map SrcStep.close_ok) st.forget_close =
        ((copy_loop W n src st).1, (copy_loop W n src st).2.forget_close) := by
  intro src
  induction src with
  | nil => intro n st; rfl
  | cons s rest ih =>
    intro n st
    by_cases h1 : s.open_ret = 0
    · by_cases h2 : s.read_ret = 0
      · by_cases h3 : s.getsize_ret = 0
        · by_cases h4 : s.dma_ret = 0
          · have hs : s.ok := ⟨h1, h2, h3, h4⟩
            have hs2 : (SrcStep.close_ok s).ok := ⟨h1, h2, h3, h4⟩
            have hev := dispatch_events_forget W n s.hdr s.payload st.targets 0
            by_cases hd : (dispatch W n s.hdr s.payload 0 st.targets).ret = 0
            · have hd2 : (dispatch W n (SrcStep.close_ok s).hdr (SrcStep.close_ok s).payload 0
                  st.forget_close.targets).ret = 0 := hd
              rw [List.map_cons, copy_loop_step W n _ _ _ hs2 hd2,
                copy_loop_step W n s rest st hs hd]
              simp only [State.forget_close, SrcStep.close_ok]
              split_ifs
              · refine Eq.trans ?_ (ih (n + 1) _)
                congr 1
                simp only [State.forget_close, List.map_append, hev]
                simp [Event.forget_close]
              · simp only [List.map_append, hev]
                simp [Event.forget_close]
            · have hd2 : (dispatch W n (SrcStep.close_ok s).hdr (SrcStep.close_ok s).payload 0
                  st.forget_close.targets).ret ≠ 0 := hd
              rw [List.map_cons, copy_loop_dispatch_fail W n _ _ _ hs2 hd2,
                copy_loop_dispatch_fail W n s rest st hs hd]
              simp only [State.forget_close, SrcStep.close_ok, List.map_append, hev]
              simp [Event.forget_close]
          · simp [copy_loop, SrcStep.close_ok, State.forget_close, State.emit, h1, h2, h3, h4,
              Event.forget_close]
        · simp [copy_loop, SrcStep.close_ok, State.forget_close, State.emit, h1, h2, h3,
            Event.forget_close]
      · simp [copy_loop, SrcStep.close_ok, State.forget_close, State.emit, h1, h2,
          Event.forget_close]
    · simp [copy_loop, SrcStep.close_ok, State.forget_close, State.emit, h1, Event.forget_close]

theorem err_forget (r : Nat) (st : State) :
    err r st.forget_close = (err r st).forget_close := by
  unfold err
  split_ifs <;> simp [State.forget_close, Event.forget_close]

theorem finish_forget (W : World) (copy : copy_s) (st : State) :
    finish W copy st.forget_close = (finish W copy st).forget_close := by
  unfold finish
  simp only [glc_state_test, State.emit, State.forget_close]
  split_ifs <;>
    simp [Event.forget_close, List.map_map, Function.comp]

theorem start_forget (W : World) (copy : copy_s) :
    (start_state W copy).forget_close = start_state W copy := by
  simp [start_state, State.forget_close, Event.forget_close]

/-- The worker does not look at the result of the source close. -/
theorem copy_thread_close_free (W : World) (copy : copy_s) :
    copy_thread { W with source := W.source.map SrcStep.close_ok } copy =
      ((copy_thread W copy).1, (copy_thread W copy).2.forget_close) := by
  rw [copy_thread_world W (W.source.map SrcStep.close_ok) copy]
  by_cases hi : W.init_ret = 0
  · have hl := copy_loop_close_free W W.source 0 (start_state W copy)
    rw [start_forget] at hl
    simp only [hi, ne_eq, not_true_eq_false, if_false, hl]
    cases hc : copy_loop W 0 W.source (start_state W copy) with
    | mk e st =>
      cases e with
      | blocked => simp [copy_thread, hi, hc]
      | finished => simp [copy_thread, hi, hc, finish_forget]
      | failed r0 => simp [copy_thread, hi, hc, finish_forget, err_forget]
  · simp only [hi, ne_eq, not_false_eq_true, if_true, copy_thread]
    rw [← finish_forget, ← err_forget, start_forget]

/-- A run in which every tested call returned 0 is not left through `err`. -/
theorem copy_thread_all_passed (W : World) (copy : copy_s)
    (h : ∀ e ∈ (copy_thread W copy).2.trace, ∀ r, Event.checked_ret e = some r → r = 0) :
    ∀ r, (copy_thread W copy).1 ≠ Exit.failed r := by
  intro r hx
  obtain ⟨body, _, _, _, b4⟩ := copy_thread_trace W copy
  obtain ⟨c1, _, op, c3, c4⟩ := b4 r hx
  exact c1 (h op (by rw [c4]; simp) r c3)


/-- C4 (amended): (1) whenever a transport call whose result the worker tests (`ps_packet_init`,
the source open, read, getsize and dma, the target open, header write, payload write and close)
returns a nonzero `r` in a run, every call before it passed, the worker leaves through `err`
with `r`, and what follows is: for `r = EINTR` the destroy and the cancels of `finish` only, with
no log and no state-set call in the whole run and a flag that is set only if set from outside;
for any other `r` one log of `r`, one state-set, then the destroy and the cancels of `finish`,
these being the only log and state-set calls of the run, and the flag is set at exit.
(2) The result of the source close is not a tested result, and the worker does not look at it:
the run in which every source close returns 0 has the same exit, flag, registry and calls, up to
the result recorded with the close calls.  (3) So a run in which every tested call returned 0,
whatever its source closes returned, is not left through `err`, makes no log and no state-set
call, and its flag is set only if set from outside.  (4) After a message has been dispatched the
loop closes the source read and, if the flag is clear and the message is not CLOSE, goes on with
the next source entry whatever the close returned. -/
theorem checked_failure_policy (W : World) (copy : copy_s) :
    (∀ (pre post : List Event) (e : Event) (r : Nat),
      (copy_thread W copy).2.trace = pre ++ e :: post →
      Event.checked_ret e = some r → r ≠ 0 →
      (copy_thread W copy).1 = Exit.failed r ∧
      (∀ x ∈ pre, Event.passed x = true) ∧
      (r = EINTR →
        post = Event.packet_destroy :: cleanup_calls copy (copy_thread W copy).2.cancel ∧
        (copy_thread W copy).2.trace.filter Event.is_report = [] ∧
        flag_external W (copy_thread W copy).2) ∧
      (r ≠ EINTR →
        post = Event.log r :: Event.state_set :: Event.packet_destroy ::
          cleanup_calls copy (copy_thread W copy).2.cancel ∧
        (copy_thread W copy).2.trace.filter Event.is_report = [Event.log r, Event.state_set] ∧
        (copy_thread W copy).2.cancel = true)) ∧
    ((∀ c, Event.checked_ret (Event.src_close c) = none) ∧
      copy_thread { W with source := W.source.map SrcStep.close_ok } copy =
        ((copy_thread W copy).1, (copy_thread W copy).2.forget_close)) ∧
    ((∀ e ∈ (copy_thread W copy).2.trace,
        Event.checked_ret e = none ∨ Event.checked_ret e = some 0) →
      (∀ r, (copy_thread W copy).1 ≠ Exit.failed r) ∧
      (copy_thread W copy).2.trace.filter Event.is_report = [] ∧
      flag_external W (copy_thread W copy).2) ∧
    (∀ (n : Nat) (s : SrcStep) (rest : List SrcStep) (st : State),
      s.ok → (dispatch W n s.hdr s.payload 0 st.targets).ret = 0 →
      (st.cancel || W.ext_cancel st.tests) = false → s.hdr.type ≠ W.GLC_MESSAGE_CLOSE →
      copy_loop W n (s :: rest) st =
        copy_loop W (n + 1) rest
          { cancel := false, tests := st.tests + 1,
            trace := st.trace ++ ([Event.src_open 0, Event.src_read 0, Event.src_getsize 0,
              Event.src_dma 0] ++ (dispatch W n s.hdr s.payload 0 st.targets).events ++
              [Event.src_close s.close_ret]),
            targets := (dispatch W n s.hdr s.payload 0 st.targets).targets }) := by
  refine ⟨?_, ⟨fun _ => rfl, copy_thread_close_free W copy⟩, ?_, ?_⟩
  · intro pre post e r htr he hr
    obtain ⟨h1, h2, h3, h4⟩ := failure_shape W copy pre post e r htr he hr
    have hrep := (copy_thread_reports W copy).1 r h1
    refine ⟨h1, h2, ?_, ?_⟩
    · intro hE
      refine ⟨by rw [h3]; simp [reports, hE], by rw [hrep]; simp [reports, hE], ?_⟩
      apply copy_thread_flag
      intro r2 hr2
      rw [h1] at hr2
      simp only [Exit.failed.injEq] at hr2
      rw [← hr2]; exact hE
    · intro hE
      exact ⟨by rw [h3]; simp [reports, hE], by rw [hrep]; simp [reports, hE], h4 hE⟩
  · intro hall
    have hne : ∀ r, (copy_thread W copy).1 ≠ Exit.failed r := by
      apply copy_thread_all_passed
      intro e he r hr
      rcases hall e he with h0 | h0
      · rw [h0] at hr; simp at hr
      · rw [h0] at hr; simp only [Option.some.injEq] at hr; exact hr.symm
    exact ⟨hne, (copy_thread_reports W copy).2 hne,
      copy_thread_flag W copy (fun r hr => absurd hr (hne r))⟩
  · intro n s rest st hs hd hc ht
    rw [copy_loop_step W n s rest st hs hd, if_pos ⟨hc, ht⟩, hc]

/-- C4 (amended) at a run where a payload write on a target fails with code 5, and at a run where
nothing fails except the close of the source read after the first message, which returns 5. -/
theorem checked_failure_policy_witness :
    (Event.checked_ret (Event.tgt_write_data 1 5) = some 5 ∧ 5 ≠ 0 ∧ 5 ≠ EINTR) ∧
    ((copy_thread (payload_fault_world 5) scenario_copy).1 = Exit.failed 5 ∧
      (copy_thread (payload_fault_world 5) scenario_copy).2.trace.filter Event.is_report =
        [Event.log 5, Event.state_set] ∧
      (copy_thread (payload_fault_world 5) scenario_copy).2.cancel = true) ∧
    (Event.src_close 5 ∈ (copy_thread close_fault_world scenario_copy).2.trace ∧
      (∀ e ∈ (copy_thread close_fault_world scenario_copy).2.trace,
        Event.checked_ret e = none ∨ Event.checked_ret e = some 0)) ∧
    ((∀ r, (copy_thread close_fault_world scenario_copy).1 ≠ Exit.failed r) ∧
      (copy_thread close_fault_world scenario_copy).2.trace.filter Event.is_report = [] ∧
      flag_external close_fault_world (copy_thread close_fault_world scenario_copy).2) ∧
    copy_thread { close_fault_world with
        source := close_fault_world.source.map SrcStep.close_ok } scenario_copy =
      ((copy_thread close_fault_world scenario_copy).1,
        (copy_thread close_fault_world scenario_copy).2.forget_close) :=
  have h := (checked_failure_policy (payload_fault_world 5) scenario_copy).1
    [Event.packet_init 0, Event.src_open 0, Event.src_read 0, Event.src_getsize 0,
      Event.src_dma 0, Event.tgt_open 1 0, Event.tgt_write_hdr 1 0]
    [Event.log 5, Event.state_set, Event.packet_destroy, Event.buffer_cancel 1,
      Event.buffer_cancel 20, Event.buffer_cancel 10]
    (Event.tgt_write_data 1 5) 5 (by decide) rfl (by decide)
  have k := checked_failure_policy close_fault_world scenario_copy
  ⟨⟨rfl, by decide, by decide⟩,
   ⟨h.1, (h.2.2.2 (by decide)).2.1, (h.2.2.2 (by decide)).2.2⟩,
   ⟨by decide, by decide⟩, k.2.2.1 (by decide), k.2.1.2⟩

/-- C4 as stated fails for the close of the source read, whose result the worker does not test:
it returns 5 after the first message, yet the worker goes on to the next message, ends its loop
normally, logs nothing and leaves the flag clear. -/
theorem unchecked_close_counterexample :
    Event.src_close 5 ∈ (copy_thread close_fault_world scenario_copy).2.trace ∧
    5 ≠ 0 ∧ 5 ≠ EINTR ∧
    (copy_thread close_fault_world scenario_copy).1 = Exit.finished ∧
    (copy_thread close_fault_world scenario_copy).2.trace.countP Event.is_src_open = 2 ∧
    (copy_thread close_fault_world scenario_copy).2.trace.filter Event.is_report = [] ∧
    (copy_thread close_fault_world scenario_copy).2.cancel = false := by
  decide

end Glcs
